import Mathlib

/-!
Shallow embedding of the LogBot core (log-line parser, KQL-style query
parser, search/filter index) and proofs checking the natural-language
specification against it.

Modelling conventions, used throughout:
* JavaScript `Date` values are epoch milliseconds (`Int`); the host clock
  `new Date()` is passed in explicitly as `now`.
* JavaScript numbers are modelled as `Int` (all numeric values the claims
  exercise are integers).
* String builtins (`toUpperCase`, `toLowerCase`, `trim`, `includes`, …) are
  modelled on their ASCII behaviour, which covers every keyword the code
  compares against.
* `JSON.parse` / `new Date(string)` are platform builtins, not repository
  code; they are modelled by executable fragments (`jsonParseObj`,
  `jsDateParse`) that cover the shapes exercised here and treat everything
  else as a parse failure.
* Thrown exceptions are modelled with `Except String`.
-/

/-! ## Character and string helpers (models of JS string builtins) -/

/-- JS `\s` whitespace class, restricted to ASCII. -/
def jsIsSpace (c : Char) : Bool :=
  c.isWhitespace || c = '\x0b' || c = '\x0c'

/-- JS `\w` word-character class (`[A-Za-z0-9_]`). -/
def isWordChar (c : Char) : Bool :=
  c.isAlpha || c.isDigit || c = '_'

/-- Model of `String.prototype.toUpperCase` on ASCII input. -/
def toUpperAscii (s : String) : String :=
  String.mk (s.toList.map Char.toUpper)

/-- Model of `String.prototype.toLowerCase` on ASCII input. -/
def toLowerAscii (s : String) : String :=
  String.mk (s.toList.map Char.toLower)

/-- Model of `String.prototype.includes` (substring test) on char lists. -/
def containsSub (hay needle : List Char) : Bool :=
  needle.isPrefixOf hay ||
    match hay with
    | [] => false
    | _ :: t => containsSub t needle

/-- Model of `String.prototype.trim` (strip JS whitespace at both ends). -/
def jsTrim (s : String) : String :=
  String.mk (((s.toList.dropWhile jsIsSpace).reverse.dropWhile jsIsSpace).reverse)

/-- Model of `String.prototype.startsWith`. -/
def jsStartsWith (s p : String) : Bool :=
  p.toList.isPrefixOf s.toList

/-- Model of `String.prototype.endsWith`. -/
def jsEndsWith (s p : String) : Bool :=
  p.toList.isSuffixOf s.toList

/-- Association-list update with JS `Map.set` semantics: an existing key is
overwritten in place (keeping its position); a new key is appended. -/
def assocSet {κ α : Type} [DecidableEq κ] (l : List (κ × α)) (k : κ) (v : α) :
    List (κ × α) :=
  match l with
  | [] => [(k, v)]
  | (k', v') :: t => if k' = k then (k, v) :: t else (k', v') :: assocSet t k v

/-- Association-list lookup (JS `Map.get` / object property read). -/
def assocGet {κ α : Type} [DecidableEq κ] (l : List (κ × α)) (k : κ) : Option α :=
  match l with
  | [] => none
  | (k', v) :: t => if k' = k then some v else assocGet t k

/-! ## JS values -/

/-- The scalar JavaScript values flowing through the core: strings, numbers
(as `Int`), booleans, `Date` objects (as epoch ms) and `null`.  `undefined`
is modelled as `Option.none` wherever it can occur. -/
inductive JSVal where
  | str (s : String)
  | num (n : Int)
  | bool (b : Bool)
  | date (ms : Int)
  | null
  deriving DecidableEq, Repr

/-- JS truthiness of a value. -/
def jsTruthy : JSVal → Bool
  | .str s => s ≠ ""
  | .num n => n ≠ 0
  | .bool b => b
  | .date _ => true
  | .null => false

/-- JS `a || b` over possibly-undefined values: yields `a` when truthy,
otherwise `b` (which may itself be `undefined` or falsy). -/
def jsOr (a b : Option JSVal) : Option JSVal :=
  match a with
  | some v => if jsTruthy v then a else b
  | none => b

/-- Model of `Number(string)`: integer literals with an optional sign parse;
the empty/whitespace string is `0`; everything else is NaN (`none`).
(The JS builtin also accepts floats and other radixes; the queries and
records in this development only use integer numerals.) -/
def jsNumberOfString (s : String) : Option Int :=
  let t := s.toList.dropWhile jsIsSpace |>.reverse.dropWhile jsIsSpace |>.reverse
  match t with
  | [] => some 0
  | '-' :: ds => if ds ≠ [] && ds.all Char.isDigit then some (-(String.mk ds).toNat!) else none
  | '+' :: ds => if ds ≠ [] && ds.all Char.isDigit then some ((String.mk ds).toNat!) else none
  | ds => if ds.all Char.isDigit then some ((String.mk ds).toNat!) else none

/-- Model of `Number(v)` for a defined scalar value (`none` is NaN). -/
def jsNumberOf : JSVal → Option Int
  | .str s => jsNumberOfString s
  | .num n => some n
  | .bool b => some (if b then 1 else 0)
  | .date ms => some ms
  | .null => some 0

/-- Model of `String(v)` for a defined scalar value.  The textual form of a
`Date` object is host-dependent; it is modelled by a fixed scheme (no claim
depends on it). -/
def jsStringOf : JSVal → String
  | .str s => s
  | .num n => toString n
  | .bool b => if b then "true" else "false"
  | .date ms => "Date(" ++ toString ms ++ ")"
  | .null => "null"

/-- JS strict equality `===` between two defined scalar values.  Two `Date`
objects compare by reference; every `===` the engine actually evaluates here
compares distinct objects, so the `date/date` case is `false`. -/
def jsStrictEq : JSVal → JSVal → Bool
  | .str a, .str b => a = b
  | .num a, .num b => a = b
  | .bool a, .bool b => a = b
  | .date _, .date _ => false
  | .null, .null => true
  | _, _ => false

/-! ## The six-level enum and `normalizeLogLevel` (src/unnamed/part_002) -/

/-- The `LogLevel` string union `TRACE | DEBUG | INFO | WARN | ERROR | FATAL`. -/
inductive LogLevel where
  | trace
  | debug
  | info
  | warn
  | error
  | fatal
  deriving DecidableEq, Repr

/-- The literal string carried by each `LogLevel` member. -/
def levelToString : LogLevel → String
  | .trace => "TRACE"
  | .debug => "DEBUG"
  | .info => "INFO"
  | .warn => "WARN"
  | .error => "ERROR"
  | .fatal => "FATAL"

/-- `normalizeLogLevel` from the source: uppercase the input, map `WARNING`
to `WARN`, keep the six canonical names, and default to `INFO`. -/
def normalizeLogLevel (level : String) : LogLevel :=
  let normalized := toUpperAscii level
  if normalized = "WARNING" then .warn
  else if normalized = "TRACE" then .trace
  else if normalized = "DEBUG" then .debug
  else if normalized = "INFO" then .info
  else if normalized = "WARN" then .warn
  else if normalized = "ERROR" then .error
  else if normalized = "FATAL" then .fatal
  else .info

/-! ## Model of `new Date(string)` (`jsDateParse`) -/

/-- Days between 1970-01-01 and the given civil date (Gregorian). -/
def daysFromCivil (y m d : Int) : Int :=
  let y' := if m ≤ 2 then y - 1 else y
  let era := y'.fdiv 400
  let yoe := y' - era * 400
  let mp := if m > 2 then m - 3 else m + 9
  let doy := (153 * mp + 2).fdiv 5 + d - 1
  let doe := yoe * 365 + yoe.fdiv 4 - yoe.fdiv 100 + doy
  era * 146097 + doe - 719468

/-- Days in a Gregorian month. -/
def daysInMonth (y m : Int) : Int :=
  if m = 2 then
    if y % 4 = 0 && (y % 100 ≠ 0 || y % 400 = 0) then 29 else 28
  else if m = 4 || m = 6 || m = 9 || m = 11 then 30
  else 31

/-- Read exactly `n` decimal digits from the front of a char list. -/
def takeDigitsN : Nat → List Char → Option (List Char × List Char)
  | 0, cs => some ([], cs)
  | _ + 1, [] => none
  | n + 1, c :: cs =>
    if c.isDigit then (takeDigitsN n cs).map (fun p => (c :: p.1, p.2)) else none

/-- Numeric value of a digit string. -/
def digitsToInt (ds : List Char) : Int :=
  ds.foldl (fun acc c => acc * 10 + (c.toNat - '0'.toNat : Int)) 0

/-- Model of the `new Date(string)` builtin, restricted to the ISO shapes
this development feeds it: `YYYY-MM-DD` optionally followed by
`THH:MM:SS` or ` HH:MM:SS`, optionally suffixed `Z`; the host timezone is
modelled as UTC.  Any other string is an invalid date (`none`), matching
the builtin's NaN result on the non-date strings occurring here. -/
def jsDateParse (s : String) : Option Int := do
  let cs := s.toList
  let (yd, cs) ← takeDigitsN 4 cs
  let cs ← match cs with | '-' :: r => some r | _ => none
  let (md, cs) ← takeDigitsN 2 cs
  let cs ← match cs with | '-' :: r => some r | _ => none
  let (dd, cs) ← takeDigitsN 2 cs
  let y := digitsToInt yd
  let m := digitsToInt md
  let d := digitsToInt dd
  if m < 1 || 12 < m || d < 1 || daysInMonth y m < d then none else
  let dayMs := daysFromCivil y m d * 86400000
  match cs with
  | [] => some dayMs
  | sep :: cs =>
    if sep ≠ 'T' && sep ≠ ' ' then none else do
    let (hh, cs) ← takeDigitsN 2 cs
    let cs ← match cs with | ':' :: r => some r | _ => none
    let (mi, cs) ← takeDigitsN 2 cs
    let cs ← match cs with | ':' :: r => some r | _ => none
    let (ss, cs) ← takeDigitsN 2 cs
    let h := digitsToInt hh
    let mi := digitsToInt mi
    let sec := digitsToInt ss
    if 23 < h || 59 < mi || 59 < sec then none else
    let ms := dayMs + (h * 3600 + mi * 60 + sec) * 1000
    match cs with
    | [] => some ms
    | ['Z'] => some ms
    | _ => none

/-! ## Model of `JSON.parse` / `JSON.stringify` for flat objects -/

/-- Escape a string for JSON output (`"` and `\` only; the payloads used
here contain no other escapable characters). -/
def jsonEscape (s : String) : String :=
  String.mk (s.toList.foldr
    (fun c acc => if c = '"' || c = '\\' then '\\' :: c :: acc else c :: acc) [])

/-- Serialize one scalar JSON value. -/
def jsonStringifyVal : JSVal → String
  | .str s => "\"" ++ jsonEscape s ++ "\""
  | .num n => toString n
  | .bool b => if b then "true" else "false"
  | .date ms => "\"Date(" ++ toString ms ++ ")\""
  | .null => "null"

/-- Model of `JSON.stringify` on a flat object (keys in insertion order). -/
def jsonStringify (obj : List (String × JSVal)) : String :=
  "\x7b" ++ String.intercalate ","
    (obj.map (fun kv => "\"" ++ jsonEscape kv.1 ++ "\":" ++ jsonStringifyVal kv.2))
  ++ "\x7d"

/-- Scan a JSON string literal body (after the opening quote): returns the
unescaped content and the rest after the closing quote. -/
def jsonScanString : Nat → List Char → Option (List Char × List Char)
  | 0, _ => none
  | _ + 1, [] => none
  | fuel + 1, c :: cs =>
    if c = '"' then some ([], cs)
    else if c = '\\' then
      match cs with
      | '"' :: r => (jsonScanString fuel r).map (fun p => ('"' :: p.1, p.2))
      | '\\' :: r => (jsonScanString fuel r).map (fun p => ('\\' :: p.1, p.2))
      | _ => none
    else (jsonScanString fuel cs).map (fun p => (c :: p.1, p.2))

/-- Parse one scalar JSON value (string, integer, `true`, `false`, `null`). -/
def jsonParseVal (fuel : Nat) (cs : List Char) : Option (JSVal × List Char) :=
  match cs with
  | '"' :: r => (jsonScanString fuel r).map (fun p => (.str (String.mk p.1), p.2))
  | '-' :: r =>
    let (ds, rest) := r.span Char.isDigit
    if ds = [] then none else some (.num (-(digitsToInt ds)), rest)
  | 't' :: 'r' :: 'u' :: 'e' :: r => some (.bool true, r)
  | 'f' :: 'a' :: 'l' :: 's' :: 'e' :: r => some (.bool false, r)
  | 'n' :: 'u' :: 'l' :: 'l' :: r => some (.null, r)
  | c :: _ =>
    if c.isDigit then
      let (ds, rest) := cs.span Char.isDigit
      some (.num (digitsToInt ds), rest)
    else none
  | [] => none

/-- Parse the members of a JSON object after the opening `{` (or after a
comma).  Duplicate keys overwrite the earlier value, as in `JSON.parse`. -/
def jsonParseMembers (fuel : Nat) (acc : List (String × JSVal)) (cs : List Char) :
    Option (List (String × JSVal) × List Char) :=
  match fuel with
  | 0 => none
  | fuel + 1 =>
    let cs := cs.dropWhile jsIsSpace
    match cs with
    | '"' :: r => do
      let (key, r) ← jsonScanString fuel r
      let r := r.dropWhile jsIsSpace
      let r ← match r with | ':' :: r => some r | _ => none
      let r := r.dropWhile jsIsSpace
      let (v, r) ← jsonParseVal fuel r
      let acc := assocSet acc (String.mk key) v
      let r := r.dropWhile jsIsSpace
      match r with
      | ',' :: r => jsonParseMembers fuel acc r
      | '}' :: r => some (acc, r)
      | _ => none
    | _ => none

/-- Model of `JSON.parse` restricted to flat objects whose values are
scalars; nested objects/arrays, floats and exotic escapes are outside the
modelled fragment and are treated as parse failures (the modelled fragment
covers every structured line this development reasons about). -/
def jsonParseObj (s : String) : Option (List (String × JSVal)) := do
  let cs := s.toList.dropWhile jsIsSpace
  let cs ← match cs with | '{' :: r => some r | _ => none
  let inner := cs.dropWhile jsIsSpace
  match inner with
  | '}' :: r =>
    if r.dropWhile jsIsSpace = [] then some [] else none
  | _ => do
    let (obj, rest) ← jsonParseMembers (s.length + 1) [] cs
    if rest.dropWhile jsIsSpace = [] then some obj else none

/-! ## Models of the regex patterns in the log parser

The source uses anchored regexes; they are modelled by explicit
prefix-matching functions.  Ordered alternation with backtracking
(`A|B` tried left to right, each with the rest of the pattern as
continuation) is modelled by `tryLevels`. -/

/-- Case-insensitive literal match at the front of a char list; returns the
matched characters exactly as written in the input, and the rest. -/
def matchCI : List Char → List Char → Option (List Char × List Char)
  | [], cs => some ([], cs)
  | _ :: _, [] => none
  | k :: ks, c :: cs =>
    if c.toLower = k.toLower then (matchCI ks cs).map (fun p => (c :: p.1, p.2))
    else none

/-- Ordered alternation over level keywords: try each keyword in order,
case-insensitively, running `cont` on the rest as the regex continuation;
the first keyword whose continuation also succeeds wins. -/
def tryLevels {α : Type} (kws : List String) (cont : List Char → Option α)
    (cs : List Char) : Option (List Char × α) :=
  match kws with
  | [] => none
  | k :: rest =>
    match matchCI k.toList cs with
    | some (m, after) =>
      match cont after with
      | some a => some (m, a)
      | none => tryLevels rest cont cs
    | none => tryLevels rest cont cs

/-- The 7-keyword alternation of the free-text pattern cascade. -/
def levelKeywords7 : List String :=
  ["TRACE", "DEBUG", "INFO", "WARN", "WARNING", "ERROR", "FATAL"]

/-- The 8-keyword alternation of `LEVEL_PATTERNS` (adds `CRITICAL`). -/
def levelKeywords8 : List String := levelKeywords7 ++ ["CRITICAL"]

/-- `\b` after a match: the next character is absent or not a word char. -/
def boundaryAfter : List Char → Bool
  | [] => true
  | c :: _ => !isWordChar c

/-- `LEVEL_PATTERNS[0]`: `/\b(…8 keywords…)\b/i`, scanning the text left to
right; `prev` is the character before the current position (for the leading
`\b`).  Returns the matched keyword as written. -/
def findLevelWord (prev : Option Char) (cs : List Char) : Option (List Char) :=
  match cs with
  | [] => none
  | c :: rest =>
    let boundaryBefore := match prev with | none => true | some p => !isWordChar p
    match
      (if boundaryBefore then
        tryLevels levelKeywords8
          (fun after => if boundaryAfter after then some () else none) (c :: rest)
      else none) with
    | some (m, _) => some m
    | none => findLevelWord (some c) rest

/-- `LEVEL_PATTERNS[1]`: `/\[(…8 keywords…)\]/i`, scanning left to right. -/
def findLevelBracket : List Char → Option (List Char)
  | [] => none
  | c :: rest =>
    match
      (if c = '[' then
        tryLevels levelKeywords8
          (fun after => match after with | ']' :: _ => some () | _ => none) rest
      else none) with
    | some (m, _) => some m
    | none => findLevelBracket rest

/-- `LEVEL_PATTERNS[2]`: `/level[=:]\s*(…8 keywords…)/i`, scanning left to
right; the keyword alternation here has no trailing `\b`. -/
def findLevelKV : List Char → Option (List Char)
  | [] => none
  | c :: rest =>
    match
      (match matchCI "level".toList (c :: rest) with
        | some (_, afterLevel) =>
          match afterLevel with
          | d :: afterDelim =>
            if d = '=' || d = ':' then
              tryLevels levelKeywords8 (fun _ => some ())
                (afterDelim.dropWhile jsIsSpace)
            else none
          | [] => none
        | none => none) with
    | some (m, _) => some m
    | none => findLevelKV rest

/-- `detectLevelInText` from the source: the three `LEVEL_PATTERNS` in
order, then the lowercase-substring keyword fallback, defaulting to INFO. -/
def detectLevelInText (text : String) : LogLevel :=
  match findLevelWord none text.toList with
  | some m => normalizeLogLevel (String.mk m)
  | none =>
  match findLevelBracket text.toList with
  | some m => normalizeLogLevel (String.mk m)
  | none =>
  match findLevelKV text.toList with
  | some m => normalizeLogLevel (String.mk m)
  | none =>
    let lower := (toLowerAscii text).toList
    if containsSub lower "fatal".toList || containsSub lower "critical".toList then .fatal
    else if containsSub lower "error".toList || containsSub lower "exception".toList
        || containsSub lower "fail".toList then .error
    else if containsSub lower "warn".toList || containsSub lower "warning".toList then .warn
    else if containsSub lower "debug".toList then .debug
    else if containsSub lower "trace".toList then .trace
    else .info

/-! ### Timestamp pattern models (`TIMESTAMP_PATTERNS`) -/

/-- Expect one character satisfying `p`. -/
def expectPred (p : Char → Bool) : List Char → Option (Char × List Char)
  | c :: rest => if p c then some (c, rest) else none
  | [] => none

/-- Expect the literal character `c`. -/
def expectChar (c : Char) (cs : List Char) : Option (Char × List Char) :=
  expectPred (· = c) cs

/-- `\s+`: at least one whitespace character, greedy. -/
def takeSpaces1 (cs : List Char) : Option (List Char × List Char) :=
  let p := cs.span jsIsSpace
  if p.1 = [] then none else some p

/-- `\d{2}:\d{2}:\d{2}`. -/
def matchHMS (cs : List Char) : Option (List Char × List Char) := do
  let (hh, cs) ← takeDigitsN 2 cs
  let (c1, cs) ← expectChar ':' cs
  let (mi, cs) ← takeDigitsN 2 cs
  let (c2, cs) ← expectChar ':' cs
  let (ss, cs) ← takeDigitsN 2 cs
  some (hh ++ [c1] ++ mi ++ [c2] ++ ss, cs)

/-- `\d{4}-\d{2}-\d{2}[T\s]\d{2}:\d{2}:\d{2}` (shared core of the ISO
patterns). -/
def matchISOCore (cs : List Char) : Option (List Char × List Char) := do
  let (y, cs) ← takeDigitsN 4 cs
  let (h1, cs) ← expectChar '-' cs
  let (mo, cs) ← takeDigitsN 2 cs
  let (h2, cs) ← expectChar '-' cs
  let (da, cs) ← takeDigitsN 2 cs
  let (sep, cs) ← expectPred (fun c => c = 'T' || jsIsSpace c) cs
  let (t, cs) ← matchHMS cs
  some (y ++ [h1] ++ mo ++ [h2] ++ da ++ [sep] ++ t, cs)

/-- `(?:\.\d+)?`: optional fraction, greedy; if the dot is not followed by
a digit the group matches empty. -/
def matchFracOpt (cs : List Char) : List Char × List Char :=
  match cs with
  | '.' :: r =>
    let p := r.span Char.isDigit
    if p.1 = [] then ([], cs) else ('.' :: p.1, p.2)
  | _ => ([], cs)

/-- `(?:\.\d{3})?`: optional fraction of exactly three digits. -/
def matchFrac3Opt (cs : List Char) : List Char × List Char :=
  match cs with
  | '.' :: r =>
    match takeDigitsN 3 r with
    | some (ds, rest) => ('.' :: ds, rest)
    | none => ([], cs)
  | _ => ([], cs)

/-- `(?:Z|[+\-]\d{2}:?\d{2})?`: optional timezone designator, greedy. -/
def matchOffsetOpt (cs : List Char) : List Char × List Char :=
  match cs with
  | 'Z' :: r => (['Z'], r)
  | c :: r =>
    if c = '+' || c = '-' then
      match takeDigitsN 2 r with
      | some (d1, r1) =>
        let (col, r2) := match r1 with | ':' :: rr => ([':'], rr) | _ => (([] : List Char), r1)
        match takeDigitsN 2 r2 with
        | some (d2, r3) => (c :: d1 ++ col ++ d2, r3)
        | none => ([], cs)
      | none => ([], cs)
    else ([], cs)
  | [] => ([], cs)

/-- `TIMESTAMP_PATTERNS[0]`: ISO-8601 with optional fraction and offset
(also group 1 of the first cascade pattern). -/
def tpISOFull (cs : List Char) : Option (List Char × List Char) := do
  let (core, cs) ← matchISOCore cs
  let f := matchFracOpt cs
  let o := matchOffsetOpt f.2
  some (core ++ f.1 ++ o.1, o.2)

/-- `TIMESTAMP_PATTERNS[1]`: ISO with optional `.mmm` fraction and `Z?`. -/
def tpISOZ (cs : List Char) : Option (List Char × List Char) := do
  let (core, cs) ← matchISOCore cs
  let f := matchFrac3Opt cs
  match f.2 with
  | 'Z' :: r => some (core ++ f.1 ++ ['Z'], r)
  | r => some (core ++ f.1, r)

/-- ISO with optional fraction, no offset (group of cascade patterns 2/3). -/
def tpISONoOff (cs : List Char) : Option (List Char × List Char) := do
  let (core, cs) ← matchISOCore cs
  let f := matchFracOpt cs
  some (core ++ f.1, f.2)

/-- `TIMESTAMP_PATTERNS[2]`: `\d{2}/\d{2}/\d{4}\s+\d{2}:\d{2}:\d{2}`. -/
def tpSlashDMY (cs : List Char) : Option (List Char × List Char) := do
  let (a, cs) ← takeDigitsN 2 cs
  let (s1, cs) ← expectChar '/' cs
  let (b, cs) ← takeDigitsN 2 cs
  let (s2, cs) ← expectChar '/' cs
  let (c, cs) ← takeDigitsN 4 cs
  let (sp, cs) ← takeSpaces1 cs
  let (t, cs) ← matchHMS cs
  some (a ++ [s1] ++ b ++ [s2] ++ c ++ sp ++ t, cs)

/-- `TIMESTAMP_PATTERNS[3]`: `\d{4}/\d{2}/\d{2}\s+\d{2}:\d{2}:\d{2}`. -/
def tpSlashYMD (cs : List Char) : Option (List Char × List Char) := do
  let (a, cs) ← takeDigitsN 4 cs
  let (s1, cs) ← expectChar '/' cs
  let (b, cs) ← takeDigitsN 2 cs
  let (s2, cs) ← expectChar '/' cs
  let (c, cs) ← takeDigitsN 2 cs
  let (sp, cs) ← takeSpaces1 cs
  let (t, cs) ← matchHMS cs
  some (a ++ [s1] ++ b ++ [s2] ++ c ++ sp ++ t, cs)

/-- `TIMESTAMP_PATTERNS[4]`: `\w{3}\s+\d{1,2}\s+\d{2}:\d{2}:\d{2}`
(syslog month/day/time).  `\d{1,2}` followed by `\s+` succeeds exactly
when the digit run has length 1 or 2. -/
def tpSyslog (cs : List Char) : Option (List Char × List Char) := do
  let (w1, cs) ← expectPred isWordChar cs
  let (w2, cs) ← expectPred isWordChar cs
  let (w3, cs) ← expectPred isWordChar cs
  let (sp1, cs) ← takeSpaces1 cs
  let ds := cs.span Char.isDigit
  if ds.1.length = 0 || 2 < ds.1.length then none else do
  let (sp2, cs) ← takeSpaces1 ds.2
  let (t, cs) ← matchHMS cs
  some ([w1, w2, w3] ++ sp1 ++ ds.1 ++ sp2 ++ t, cs)

/-- `TIMESTAMP_PATTERNS[5]`: `\d{10,13}` (greedy up to 13 digits). -/
def tpEpoch (cs : List Char) : Option (List Char × List Char) :=
  let p := cs.span Char.isDigit
  if p.1.length < 10 then none
  else some (p.1.take 13, p.1.drop 13 ++ p.2)

/-- `looksLikeTimestamp`: `TIMESTAMP_PATTERNS.some(p => p.test(value))`. -/
def looksLikeTimestampL (cs : List Char) : Bool :=
  (tpISOFull cs).isSome || (tpISOZ cs).isSome || (tpSlashDMY cs).isSome ||
    (tpSlashYMD cs).isSome || (tpSyslog cs).isSome || (tpEpoch cs).isSome

/-! ## Log records and the LogParser (src/unnamed/part_002) -/

/-- `LogEntry` from `@/types`: optional properties are `Option`;
`timestamp` is a `Date` (epoch ms); `source`/`service`/`host` hold whatever
value the `||`-chains of `parseJsonLine` produce. -/
structure LogEntry where
  id : String
  timestamp : Int
  level : LogLevel
  message : String
  file : String
  raw : String
  fields : Option (List (String × JSVal)) := none
  source : Option JSVal := none
  service : Option JSVal := none
  host : Option JSVal := none
  lineNumber : Option Nat := none
  deriving DecidableEq, Repr

/-- The ambient effects of one `parseLine` call: the value of `new Date()`
and the id `generateId()` returns (random in the source). -/
structure ParseCtx where
  now : Int
  newId : String

/-- `ParseOptions` (only the fields `parseLine` reads). -/
structure ParseOptions where
  enableJsonDetection : Bool
  maxErrors : Nat

/-- The constructor defaults: JSON detection on, error cap 1000. -/
def defaultParseOptions : ParseOptions :=
  { enableJsonDetection := true, maxErrors := 1000 }

/-- `parseTimestamp`: `Date` passes through; numbers below `1e12` are epoch
seconds (scaled by 1000), otherwise milliseconds; strings go through
`new Date(string)` falling back to `new Date()` when invalid; anything
else is `new Date()`. -/
def parseTimestamp (now : Int) : JSVal → Int
  | .date ms => ms
  | .num n => if n < 10 ^ 12 then n * 1000 else n
  | .str s => match jsDateParse s with | some ms => ms | none => now
  | .bool _ => now
  | .null => now

/-- `looksLikeJson`: trimmed line starts with `{` and ends with `}`. -/
def looksLikeJson (line : String) : Bool :=
  jsStartsWith (jsTrim line) "\x7b" && jsEndsWith (jsTrim line) "\x7d"

/-- First field in `fields` whose value on `json` is truthy, with its
value (the `if (json[field])` cascade shared by the extractors). -/
def firstTruthyField (json : List (String × JSVal)) :
    List String → Option (String × JSVal)
  | [] => none
  | f :: rest =>
    match assocGet json f with
    | some v => if jsTruthy v then some (f, v) else firstTruthyField json rest
    | none => firstTruthyField json rest

/-- The prioritized timestamp field names of `extractTimestamp`. -/
def timestampFields : List String := ["@timestamp", "timestamp", "ts", "time", "datetime"]

/-- `extractTimestamp`: first truthy timestamp field parsed, else `new Date()`. -/
def extractTimestamp (now : Int) (json : List (String × JSVal)) : Int :=
  match firstTruthyField json timestampFields with
  | some (_, v) => parseTimestamp now v
  | none => now

/-- The prioritized level field names of `extractLevel`. -/
def levelFields : List String := ["level", "severity", "priority", "loglevel"]

/-- `extractLevel`: the first truthy level field is passed to
`normalizeLogLevel` (a non-string truthy value makes the source throw a
`TypeError` inside `level.toUpperCase()`, modelled as `.error`); when no
level field is truthy the source falls back to
`detectLevelInText(JSON.stringify(json))`. -/
def extractLevel (json : List (String × JSVal)) : Except String LogLevel :=
  match firstTruthyField json levelFields with
  | some (_, .str s) => .ok (normalizeLogLevel s)
  | some (_, _) => .error "TypeError: level.toUpperCase is not a function"
  | none => .ok (detectLevelInText (jsonStringify json))

/-- The prioritized message field names of `extractMessage`. -/
def messageFields : List String := ["message", "msg", "text", "content", "description"]

/-- First field whose value is a truthy string (`json[f] && typeof json[f]
=== 'string'`). -/
def firstTruthyStringField (json : List (String × JSVal)) :
    List String → Option String
  | [] => none
  | f :: rest =>
    match assocGet json f with
    | some (.str s) =>
      if s ≠ "" then some s else firstTruthyStringField json rest
    | _ => firstTruthyStringField json rest

/-- `extractMessage`: first truthy string-valued message field, else the
whole payload serialized. -/
def extractMessage (json : List (String × JSVal)) : String :=
  match firstTruthyStringField json messageFields with
  | some s => s
  | none => jsonStringify json

/-- The eight keys `parseJsonLine` deletes from the copied payload —
a fixed list, independent of which keys the extractors consumed. -/
def deletedKeys : List String :=
  ["timestamp", "ts", "time", "@timestamp", "level", "severity", "message", "msg"]

/-- The `delete fields.…` sequence applied to `{ ...json }`. -/
def removeDeletedKeys (json : List (String × JSVal)) : List (String × JSVal) :=
  deletedKeys.foldl (fun acc k => acc.filter (fun kv => kv.1 ≠ k)) json

/-- The body of `parseJsonLine` after `JSON.parse` succeeded. -/
def jsonToEntry (ctx : ParseCtx) (fileName : String) (lineNumber : Nat)
    (line : String) (json : List (String × JSVal)) : Except String LogEntry :=
  match extractLevel json with
  | .error e => .error e
  | .ok level =>
    .ok { id := ctx.newId
          timestamp := extractTimestamp ctx.now json
          level
          message := extractMessage json
          file := fileName
          raw := line
          fields := some (removeDeletedKeys json)
          source := jsOr (jsOr (assocGet json "source") (assocGet json "logger"))
                      (some (.str fileName))
          service := jsOr (jsOr (assocGet json "service") (assocGet json "app"))
                      (assocGet json "component")
          host := jsOr (assocGet json "host") (assocGet json "hostname")
          lineNumber := some lineNumber }

/-- `parseJsonLine`: any failure inside the `try` block (the `JSON.parse`
call or the extractors) is rethrown as `JSON parsing failed: …`. -/
def parseJsonLine (ctx : ParseCtx) (line fileName : String) (lineNumber : Nat) :
    Except String LogEntry :=
  match jsonParseObj line with
  | none => .error "JSON parsing failed: SyntaxError"
  | some json =>
    match jsonToEntry ctx fileName lineNumber line json with
    | .error m => .error ("JSON parsing failed: " ++ m)
    | .ok e => .ok e

/-! ### The free-text pattern cascade of `parseTextLine` -/

/-- A regex match of one cascade pattern: three capture groups
(`match.length === 4`) or two (`match.length === 3`). -/
inductive PatMatch where
  | three (g1 g2 g3 : List Char)
  | two (g1 g2 : List Char)

/-- Cascade pattern 1: `^(ISO)\s+(LEVEL)\b\s*(.*)$`. -/
def patIsoLevel (cs : List Char) : Option PatMatch := do
  let (ts, cs) ← tpISOFull cs
  let (_, cs) ← takeSpaces1 cs
  let (lvl, msg) ← tryLevels levelKeywords7
    (fun after => if boundaryAfter after then some (after.dropWhile jsIsSpace) else none) cs
  some (.three ts lvl msg)

/-- Cascade pattern 2: `^(ISO-no-offset)\s*\[(LEVEL)\]\s*(.*)$`. -/
def patIsoBracketLevel (cs : List Char) : Option PatMatch := do
  let (ts, cs) ← tpISONoOff cs
  let cs := cs.dropWhile jsIsSpace
  let (_, cs) ← expectChar '[' cs
  let (lvl, msg) ← tryLevels levelKeywords7
    (fun after => match after with
      | ']' :: r => some (r.dropWhile jsIsSpace)
      | _ => none) cs
  some (.three ts lvl msg)

/-- Cascade pattern 3: `^(LEVEL)\s+(ISO-no-offset)\s*(.*)$`. -/
def patLevelIso (cs : List Char) : Option PatMatch := do
  let (lvl, p) ← tryLevels levelKeywords7
    (fun after => do
      let (_, cs) ← takeSpaces1 after
      let (ts, cs) ← tpISONoOff cs
      some (ts, cs.dropWhile jsIsSpace)) cs
  some (.three lvl p.1 p.2)

/-- Cascade pattern 4: `^(LEVEL)\s*[:\-\s]\s*(.*)$` (level and message,
no timestamp).  The greedy `\s*` backtracks one space when needed to feed
the `[:\-\s]` character class. -/
def patLevelMsg (cs : List Char) : Option PatMatch := do
  let (lvl, msg) ← tryLevels levelKeywords7
    (fun after =>
      let p := after.span jsIsSpace
      match p.2 with
      | ':' :: r => some (r.dropWhile jsIsSpace)
      | '-' :: r => some (r.dropWhile jsIsSpace)
      | r => if p.1 ≠ [] then some r else none) cs
  some (.two lvl msg)

/-- The ordered pattern list of `parseTextLine`. -/
def cascadePatterns : List (List Char → Option PatMatch) :=
  [patIsoLevel, patIsoBracketLevel, patLevelIso, patLevelMsg]

/-- One matched cascade outcome: which groups are timestamp/level/message. -/
inductive CascadeHit where
  | tsLvlMsg (ts lvl msg : List Char)
  | lvlTsMsg (lvl ts msg : List Char)
  | lvlMsg (lvl msg : List Char)

/-- The `for (const pattern of patterns)` loop: first pattern that matches
and passes the `looksLikeTimestamp` group dispatch wins; a match that fits
no branch falls through to the next pattern (`continue`). -/
def runCascade : List (List Char → Option PatMatch) → List Char → Option CascadeHit
  | [], _ => none
  | p :: rest, cs =>
    match p cs with
    | none => runCascade rest cs
    | some (.three g1 g2 g3) =>
      if looksLikeTimestampL g1 then some (.tsLvlMsg g1 g2 g3)
      else if looksLikeTimestampL g2 then some (.lvlTsMsg g1 g2 g3)
      else runCascade rest cs
    | some (.two g1 g2) => some (.lvlMsg g1 g2)

/-- `extractTimestampFromText`: the six `TIMESTAMP_PATTERNS` tried in
order; the captured prefix goes through `parseTimestamp`. -/
def extractTimestampFromText (now : Int) (cs : List Char) : Option Int :=
  match tpISOFull cs with
  | some (g, _) => some (parseTimestamp now (.str (String.mk g)))
  | none =>
  match tpISOZ cs with
  | some (g, _) => some (parseTimestamp now (.str (String.mk g)))
  | none =>
  match tpSlashDMY cs with
  | some (g, _) => some (parseTimestamp now (.str (String.mk g)))
  | none =>
  match tpSlashYMD cs with
  | some (g, _) => some (parseTimestamp now (.str (String.mk g)))
  | none =>
  match tpSyslog cs with
  | some (g, _) => some (parseTimestamp now (.str (String.mk g)))
  | none =>
  match tpEpoch cs with
  | some (g, _) => some (parseTimestamp now (.str (String.mk g)))
  | none => none

/-- `parseTextLine`: the pattern cascade, then the level/timestamp
detection fallback.  Every branch of the source returns an entry (the
declared `LogEntry | null` return type notwithstanding), so the model
returns `LogEntry` directly. -/
def parseTextLine (ctx : ParseCtx) (line fileName : String) (lineNumber : Nat) :
    LogEntry :=
  let base : CascadeHit → LogEntry := fun hit =>
    let (ts, lvl, msg) :=
      match hit with
      | .tsLvlMsg g1 g2 g3 =>
        (parseTimestamp ctx.now (.str (String.mk g1)), normalizeLogLevel (String.mk g2), g3)
      | .lvlTsMsg g1 g2 g3 =>
        (parseTimestamp ctx.now (.str (String.mk g2)), normalizeLogLevel (String.mk g1), g3)
      | .lvlMsg g1 g2 =>
        (ctx.now, normalizeLogLevel (String.mk g1), g2)
    { id := ctx.newId, timestamp := ts, level := lvl,
      message := jsTrim (String.mk msg), file := fileName, raw := line,
      source := some (.str fileName), lineNumber := some lineNumber }
  match runCascade cascadePatterns line.toList with
  | some hit => base hit
  | none =>
    { id := ctx.newId
      timestamp := (extractTimestampFromText ctx.now line.toList).getD ctx.now
      level := detectLevelInText line
      message := line
      file := fileName
      raw := line
      source := some (.str fileName)
      lineNumber := some lineNumber }

/-- `parseLine`: empty/whitespace lines yield no record; JSON-looking lines
(with detection enabled) go to `parseJsonLine`, which can throw; everything
else goes to `parseTextLine`. -/
def parseLine (ctx : ParseCtx) (options : ParseOptions) (line fileName : String)
    (lineNumber : Nat) : Except String (Option LogEntry) :=
  if jsTrim line = "" then .ok none
  else if options.enableJsonDetection && looksLikeJson line then
    (parseJsonLine ctx line fileName lineNumber).map some
  else .ok (some (parseTextLine ctx line fileName lineNumber))

/-! ## The KQL-style query parser (src/src/lib/kql.ts) -/

/-- Filter operators (`FilterOperator` in `@/types`). -/
inductive FilterOperator where
  | equals
  | contains
  | startsWith
  | endsWith
  | gt
  | gte
  | lt
  | lte
  | range
  | exists
  deriving DecidableEq, Repr

/-- A filter value: a scalar, or the two-element array a range carries. -/
inductive FilterValue where
  | fsingle (v : JSVal)
  | fpair (lo hi : JSVal)
  deriving DecidableEq, Repr

/-- `QueryFilter`: field, operator, value, negate flag (absent = false). -/
structure QueryFilter where
  field : String
  operator : FilterOperator
  value : FilterValue
  negate : Bool := false
  deriving DecidableEq, Repr

/-- Tokens of the KQL tokenizer (the informational `position` member is
never read by the parser and is omitted). -/
inductive Token where
  | field (v : String)
  | op (v : String)
  | value (v : String)
  | text (v : String)
  | paren (v : String)
  | tokAnd
  | tokOr
  | tokNot
  deriving DecidableEq, Repr

/-- The characters that end a bare word: `/[\s:()<>="]/`. -/
def isSpecialChar (c : Char) : Bool :=
  jsIsSpace c || c = ':' || c = '(' || c = ')' || c = '<' || c = '>' || c = '=' || c = '"'

/-- The quoted-string scan of the tokenizer: consume up to the closing
quote (a backslash skips the next character); the raw body then has `\"`
unescaped by `replace(/\\"/g, '"')`.  An unterminated literal consumes the
rest of the input. -/
def scanQuoted : Nat → List Char → List Char × List Char
  | 0, cs => ([], cs)
  | _ + 1, [] => ([], [])
  | fuel + 1, c :: cs =>
    if c = '"' then ([], cs)
    else if c = '\\' then
      match cs with
      | [] => ([c], [])
      | d :: rest =>
        let p := scanQuoted fuel rest
        (c :: d :: p.1, p.2)
    else
      let p := scanQuoted fuel cs
      (c :: p.1, p.2)

/-- `replace(/\\"/g, '"')` on the raw quoted body. -/
def unescapeQuotes : List Char → List Char
  | '\\' :: '"' :: rest => '"' :: unescapeQuotes rest
  | c :: rest => c :: unescapeQuotes rest
  | [] => []

/-- The range-literal scan: everything through the matching `]` (or to the
end of input) is one VALUE token, brackets included. -/
def scanBracket (cs : List Char) : List Char × List Char :=
  let p := cs.span (· ≠ ']')
  match p.2 with
  | ']' :: r => ('[' :: p.1 ++ [']'], r)
  | _ => ('[' :: p.1, [])

/-- The tokenizer.  `fuel` dominates the number of loop iterations; every
iteration consumes at least one character except the word branch on an
empty word (a bare `=`), where the source's index does not advance and the
loop never terminates — that divergence is modelled as `none`. -/
def tokenizeGo : Nat → List Char → Option (List Token)
  | 0, _ => none
  | _ + 1, [] => some []
  | fuel + 1, c :: cs =>
    if jsIsSpace c then tokenizeGo fuel cs
    else if c = '"' then
      let p := scanQuoted (cs.length + 1) cs
      (tokenizeGo fuel p.2).map (Token.value (String.mk (unescapeQuotes p.1)) :: ·)
    else if c = ':' then (tokenizeGo fuel cs).map (Token.op ":" :: ·)
    else if c = '(' || c = ')' then
      (tokenizeGo fuel cs).map (Token.paren (String.singleton c) :: ·)
    else if c = '[' then
      let p := scanBracket cs
      (tokenizeGo fuel p.2).map (Token.value (String.mk p.1) :: ·)
    else if c = '>' || c = '<' then
      match cs with
      | '=' :: r => (tokenizeGo fuel r).map (Token.op (String.mk [c, '=']) :: ·)
      | _ => (tokenizeGo fuel cs).map (Token.op (String.singleton c) :: ·)
    else
      let p := (c :: cs).span (fun ch => !isSpecialChar ch)
      match p.1 with
      | [] => none
      | w =>
        let word := String.mk w
        let up := toUpperAscii word
        let tok :=
          if up = "AND" then Token.tokAnd
          else if up = "OR" then Token.tokOr
          else if up = "NOT" then Token.tokNot
          else
            match p.2.dropWhile jsIsSpace with
            | ':' :: _ => Token.field word
            | _ => Token.text word
        (tokenizeGo fuel p.2).map (tok :: ·)

/-- `tokenize(query)`. -/
def tokenize (query : String) : Option (List Token) :=
  tokenizeGo (query.length + 1) query.toList

/-- `parseValue`: number first, then date, else string. -/
def parseValue (value : String) : JSVal :=
  match jsNumberOfString value with
  | some n => .num n
  | none =>
    match jsDateParse value with
    | some ms => .date ms
    | none => .str value

/-- `split(/\s+TO\s+/i)`: split on runs of whitespace + `TO` (any case) +
whitespace.  `findSep` locates the leftmost separator. -/
def splitTOFindSep : Nat → List Char → Option (Nat × List Char)
  | _, [] => none
  | 0, _ => none
  | fuel + 1, c :: rest =>
    (if jsIsSpace c then
      let sp := (c :: rest).span jsIsSpace
      match sp.2 with
      | t :: o :: afterTO =>
        if (t = 'T' || t = 't') && (o = 'O' || o = 'o') then
          let sp2 := afterTO.span jsIsSpace
          if sp2.1 ≠ [] then some (0, sp2.2) else none
        else none
      | _ => none
    else none).orElse (fun _ =>
      (splitTOFindSep fuel rest).map (fun p => (p.1 + 1, p.2)))

/-- The full split: the list of parts between separators. -/
def splitTOGo : Nat → List Char → List (List Char)
  | 0, cs => [cs]
  | fuel + 1, cs =>
    match splitTOFindSep (cs.length + 1) cs with
    | none => [cs]
    | some (k, rest) => cs.take k :: splitTOGo fuel rest

/-- `rangeContent.split(/\s+TO\s+/i)` as strings. -/
def splitTO (s : String) : List String :=
  (splitTOGo (s.length + 1) s.toList).map String.mk

/-- The leading range-literal block of `createFilter`: a bracketed value
that splits into exactly two `TO`-separated parts becomes a range filter;
any other shape falls through (`none`). -/
def rangeFilterOf (field value : String) : Option QueryFilter :=
  if jsStartsWith value "[" && jsEndsWith value "]" then
    let rangeContent := String.mk (value.toList.drop 1).dropLast
    match splitTO rangeContent with
    | [a, b] =>
      some { field, operator := .range, value := .fpair (parseValue a) (parseValue b) }
    | _ => none
  else none

/-- `createFilter`: a well-formed `[A TO B]` literal becomes a range filter;
otherwise the operator token maps to its filter operator and the raw value
(brackets and all, for a malformed range literal) is coerced by
`parseValue`. -/
def createFilter (field op value : String) : Option QueryFilter :=
  match rangeFilterOf field value with
  | some f => some f
  | none =>
    let mapped : Option FilterOperator :=
      if op = ":" then some .equals
      else if op = ">" then some .gt
      else if op = ">=" then some .gte
      else if op = "<" then some .lt
      else if op = "<=" then some .lte
      else none
    mapped.map (fun o => { field, operator := o, value := .fsingle (parseValue value) })

/-- The result of one `parseExpression` step. -/
inductive ExprResult where
  | filt (f : QueryFilter)
  | txt (s : String)

/-- `parseExpression`, as a function of the remaining token list (the
source walks an index over `this.tokens`).  Mirrors the fallthrough
behaviour exactly, including the extra `advance()` at the bottom after a
FIELD token that is not followed by a usable operator/value. -/
def parseExpression : List Token → ExprResult × List Token
  | [] => (.txt "", [])
  | .tokNot :: rest =>
    let p := parseExpression rest
    match p.1 with
    | .filt f => (.filt { f with negate := true }, p.2)
    | r => (r, p.2)
  | .field f :: rest =>
    (match rest with
      | .op opv :: rest2 =>
        (match rest2 with
          | v :: rest3 =>
            let vstr := match v with
              | .field s => s | .op s => s | .value s => s | .text s => s
              | .paren s => s | .tokAnd => "AND" | .tokOr => "OR" | .tokNot => "NOT"
            (match createFilter f opv vstr with
              | some flt => (.filt flt, rest3)
              | none => (.txt "", rest3.drop 1))
          | [] => (.txt "", []))
      | _ :: rest2 => (.txt "", rest2)
      | [] => (.txt "", []))
  | .text s :: rest => (.txt s, rest)
  | .value s :: rest => (.txt s, rest)
  | .tokAnd :: rest => parseExpression rest
  | .tokOr :: rest => parseExpression rest
  | .op _ :: rest => (.txt "", rest)
  | .paren _ :: rest => (.txt "", rest)

/-- The `while (this.position < this.tokens.length)` loop of `parse`. -/
def parseLoop : Nat → List Token → List QueryFilter → List String →
    List QueryFilter × List String
  | 0, _, filters, texts => (filters, texts)
  | _ + 1, [], filters, texts => (filters, texts)
  | fuel + 1, toks, filters, texts =>
    let p := parseExpression toks
    match p.1 with
    | .filt f => parseLoop fuel p.2 (filters ++ [f]) texts
    | .txt s => parseLoop fuel p.2 filters (texts ++ [s])

/-- `KQLParser.parse`: `none` models the tokenizer diverging (see
`tokenizeGo`); otherwise the filters and the space-joined trimmed text. -/
def kqlParse (query : String) : Option (List QueryFilter × String) :=
  (tokenize query).map (fun toks =>
    let p := parseLoop (toks.length + 1) toks [] []
    (p.1, jsTrim (String.intercalate " " p.2)))

/-! ## The search/filter index (src/unnamed/part_001) -/

/-- Inferred field types of `FieldSuggestion`. -/
inductive FieldType where
  | string
  | number
  | date
  | boolean
  deriving DecidableEq, Repr

/-- `FieldSuggestion`: field name, inferred type, distinct-value count,
up to 10 example values. -/
structure FieldSuggestion where
  field : String
  type : FieldType
  cardinality : Nat
  examples : List JSVal
  deriving DecidableEq, Repr

/-- `TimeRange` (the `from`/`to` instants; the informational preset label
is omitted). -/
structure TimeRange where
  fromTime : Int
  toTime : Int
  deriving DecidableEq, Repr

/-- `SearchQuery` (the optional `fuzzy` flag defaults to off). -/
structure SearchQuery where
  text : String
  filters : List QueryFilter
  timeRange : TimeRange
  fuzzy : Bool := false

/-- `SearchResult` (the `took` wall-time measurement is I/O and elided). -/
structure SearchResult where
  entries : List LogEntry
  total : Nat
  deriving Repr

/-- `LogSearchIndex` state: the keyed entry collection (a JS `Map`, i.e. an
insertion-ordered list with unique ids) and the field-statistics map.
The MiniSearch text structure is an external library; its lookup behaviour
is abstracted as `textIndex : query text → fuzzy flag → matching ids`
(no claim exercises the text path). -/
structure IndexState where
  entries : List LogEntry
  fieldStats : List (String × FieldSuggestion)
  textIndex : String → Bool → List String

/-- `Map.set(entry.id, entry)` over the entry collection. -/
def entSet (l : List LogEntry) (e : LogEntry) : List LogEntry :=
  match l with
  | [] => [e]
  | x :: t => if x.id = e.id then e :: t else x :: entSet t e

/-- `getFieldValue`: direct attributes for the standard names, otherwise
the open structured-fields mapping (`entry.fields?.[field]`). -/
def getFieldValue (entry : LogEntry) (field : String) : Option JSVal :=
  if field = "timestamp" then some (.date entry.timestamp)
  else if field = "level" then some (.str (levelToString entry.level))
  else if field = "message" then some (.str entry.message)
  else if field = "file" then some (.str entry.file)
  else if field = "source" then entry.source
  else if field = "service" then entry.service
  else if field = "host" then entry.host
  else if field = "lineNumber" then entry.lineNumber.map (fun n => .num n)
  else entry.fields.bind (fun fs => assocGet fs field)

/-- `String(filter.value)`: an array stringifies as its comma-joined
elements. -/
def fvToString : FilterValue → String
  | .fsingle v => jsStringOf v
  | .fpair a b => jsStringOf a ++ "," ++ jsStringOf b

/-- `Number(filter.value)`: a two-element array is NaN. -/
def fvToNumber : FilterValue → Option Int
  | .fsingle v => jsNumberOf v
  | .fpair _ _ => none

/-- `matchesFilter`.  An absent (`undefined`/`null`) resolved value returns
`filter.operator === 'exists' ? false : true` directly — before the negate
flag is applied.  For a present value the operator is evaluated and
`filter.negate` inverts the outcome.  NaN comparisons are false. -/
def matchesFilter (entry : LogEntry) (filter : QueryFilter) : Bool :=
  match getFieldValue entry filter.field with
  | none => filter.operator ≠ FilterOperator.exists
  | some .null => filter.operator ≠ FilterOperator.exists
  | some v =>
    let outcome :=
      match filter.operator with
      | .equals =>
        (match filter.value with
          | .fsingle fv => jsStrictEq v fv
          | .fpair _ _ => false)
      | .contains =>
        containsSub (toLowerAscii (jsStringOf v)).toList
          (toLowerAscii (fvToString filter.value)).toList
      | .startsWith =>
        (toLowerAscii (fvToString filter.value)).toList.isPrefixOf
          (toLowerAscii (jsStringOf v)).toList
      | .endsWith =>
        (toLowerAscii (fvToString filter.value)).toList.isSuffixOf
          (toLowerAscii (jsStringOf v)).toList
      | .gt =>
        (match jsNumberOf v, fvToNumber filter.value with
          | some a, some b => a > b
          | _, _ => false)
      | .gte =>
        (match jsNumberOf v, fvToNumber filter.value with
          | some a, some b => a ≥ b
          | _, _ => false)
      | .lt =>
        (match jsNumberOf v, fvToNumber filter.value with
          | some a, some b => a < b
          | _, _ => false)
      | .lte =>
        (match jsNumberOf v, fvToNumber filter.value with
          | some a, some b => a ≤ b
          | _, _ => false)
      | .range =>
        (match filter.value with
          | .fpair lo hi =>
            (match jsNumberOf v, jsNumberOf lo, jsNumberOf hi with
              | some nv, some nlo, some nhi => nlo ≤ nv && nv ≤ nhi
              | _, _, _ => false)
          | .fsingle _ => false)
      | .exists => true
    if filter.negate then !outcome else outcome

/-- `matchesFilters`: AND-conjunction. -/
def matchesFilters (entry : LogEntry) (filters : List QueryFilter) : Bool :=
  filters.all (matchesFilter entry)

/-- `Date.parse(v)` as used by `inferFieldType`: strings through the date
parser; a `Date` value round-trips; other scalars stringify to non-dates. -/
def jsDateParseAny : JSVal → Option Int
  | .str s => jsDateParse s
  | .date ms => some ms
  | _ => none

/-- `inferFieldType`: sample the first value's runtime type, then the
"all values numeric / all values dates" checks, defaulting to string. -/
def inferFieldType (values : List JSVal) : FieldType :=
  match values with
  | [] => .string
  | sample :: _ =>
    match sample with
    | .bool _ => .boolean
    | .num _ => .number
    | .date _ => .date
    | _ =>
      if values.all (fun v => (jsNumberOf v).isSome) then .number
      else if values.all (fun v => (jsDateParseAny v).isSome) then .date
      else .string

/-- `updateFieldStat`: skip `undefined`/`null`, then bump the value's count
in the per-field value→count table. -/
def updateFieldStat (fc : List (String × List (JSVal × Nat))) (field : String)
    (value : Option JSVal) : List (String × List (JSVal × Nat)) :=
  match value with
  | none => fc
  | some .null => fc
  | some v =>
    let vc := (assocGet fc field).getD []
    assocSet fc field (assocSet vc v ((assocGet vc v).getD 0 + 1))

/-- The (field, value) contributions of one entry, in the order
`updateFieldStats` visits them: the five standard fields, then the custom
fields. -/
def entryStatPairs (e : LogEntry) : List (String × Option JSVal) :=
  [("level", some (.str (levelToString e.level))),
   ("file", some (.str e.file)),
   ("source", e.source),
   ("service", e.service),
   ("host", e.host)] ++
  (match e.fields with
    | none => []
    | some fs => fs.map (fun kv => (kv.1, some kv.2)))

/-- The per-entry step of the `entries.forEach` loop. -/
def stepEntryStats (fc : List (String × List (JSVal × Nat))) (e : LogEntry) :
    List (String × List (JSVal × Nat)) :=
  (entryStatPairs e).foldl (fun fc kv => updateFieldStat fc kv.1 kv.2) fc

/-- The local `fieldCounts` table built from one batch (note: from the
batch alone — it does not start from the previous statistics). -/
def buildFieldCounts (batch : List LogEntry) : List (String × List (JSVal × Nat)) :=
  batch.foldl stepEntryStats []

/-- One `FieldSuggestion` from a value→count table (the source also
computes a `totalCount` it never uses). -/
def mkSuggestion (field : String) (vc : List (JSVal × Nat)) : FieldSuggestion :=
  let values := vc.map (·.1)
  { field
    type := inferFieldType values
    cardinality := values.length
    examples := values.take 10 }

/-- `updateFieldStats`: every field of the batch-local table overwrites its
`fieldStats` slot; fields not mentioned by the batch keep their old
suggestion. -/
def updateFieldStats (stats : List (String × FieldSuggestion))
    (batch : List LogEntry) : List (String × FieldSuggestion) :=
  (buildFieldCounts batch).foldl (fun st p => assocSet st p.1 (mkSuggestion p.1 p.2)) stats

/-- `addEntries`: add to the entry map and recompute field statistics.
(`miniSearch.addAll` feeds the external text structure, which the model
reads only through the fixed `textIndex` abstraction.) -/
def addEntries (s : IndexState) (batch : List LogEntry) : IndexState :=
  { s with
    entries := batch.foldl entSet s.entries
    fieldStats := updateFieldStats s.fieldStats batch }

/-- `getFieldSuggestions`: the stored suggestions in map order. -/
def getFieldSuggestions (s : IndexState) : List FieldSuggestion :=
  s.fieldStats.map (·.2)

/-- The stable insertion step of the model of `Array.prototype.sort` with
comparator `(a, b) => b.timestamp - a.timestamp`: skip past strictly newer
entries, landing before the first entry that is not newer (so equal
timestamps keep their original relative order). -/
def insertDesc (x : LogEntry) : List LogEntry → List LogEntry
  | [] => [x]
  | y :: ys => if x.timestamp < y.timestamp then y :: insertDesc x ys else x :: y :: ys

/-- Stable descending-by-timestamp sort (the ECMAScript sort is required
to be stable; a stable insertion sort realizes the same unique result for
this comparator). -/
def sortDesc : List LogEntry → List LogEntry
  | [] => []
  | x :: xs => insertDesc x (sortDesc xs)

/-- `search`: time-range filter (inclusive both ends), then the filter
conjunction (skipped when there are no filters), then the text lookup
(skipped when the query text trims to empty), then the descending stable
sort.  The model is total, so the source's catch-all error branch is
unreachable; `took` is elided. -/
def search (s : IndexState) (q : SearchQuery) : SearchResult :=
  let candidates := s.entries.filter (fun e =>
    q.timeRange.fromTime ≤ e.timestamp && e.timestamp ≤ q.timeRange.toTime)
  let candidates :=
    if 0 < q.filters.length then candidates.filter (fun e => matchesFilters e q.filters)
    else candidates
  let results :=
    if jsTrim q.text ≠ "" then
      let ids := s.textIndex q.text q.fuzzy
      candidates.filter (fun e => ids.contains e.id)
    else candidates
  let sorted := sortDesc results
  { entries := sorted, total := sorted.length }

/-! ## Shared concrete instances for witnesses and counterexamples -/

/-- A concrete parse context. -/
def sampleCtx : ParseCtx := { now := 0, newId := "id0" }

/-- A concrete entry with level ERROR and no service/host/fields. -/
def entryErr : LogEntry :=
  { id := "w", timestamp := 0, level := .error, message := "m", file := "f", raw := "r" }

/-! ## Claim theorems -/

/-- C8: `normalizeLogLevel` is total (every string maps to one of the six
canonical levels) and idempotent (renormalizing its own output is a fixed
point); case variants of the canonical names and `WARNING` map to their
canonical level; every input whose uppercase form is not one of the seven
recognized keywords maps to INFO. -/
theorem claim_C8_normalizeLevel :
    (∀ s : String, normalizeLogLevel s ∈
      [LogLevel.trace, LogLevel.debug, LogLevel.info, LogLevel.warn,
       LogLevel.error, LogLevel.fatal])
    ∧ (∀ s : String,
        normalizeLogLevel (levelToString (normalizeLogLevel s)) = normalizeLogLevel s)
    ∧ normalizeLogLevel "WARNING" = LogLevel.warn
    ∧ normalizeLogLevel "Warning" = LogLevel.warn
    ∧ normalizeLogLevel "error" = LogLevel.error
    ∧ normalizeLogLevel "FaTaL" = LogLevel.fatal
    ∧ (∀ s : String,
        toUpperAscii s ∉ ["TRACE", "DEBUG", "INFO", "WARN", "WARNING", "ERROR", "FATAL"] →
        normalizeLogLevel s = LogLevel.info) := by
  refine ⟨?_, ?_, rfl, rfl, rfl, rfl, ?_⟩
  · intro s
    cases h : normalizeLogLevel s <;> simp
  · intro s
    have key : ∀ l : LogLevel, normalizeLogLevel (levelToString l) = l := by
      intro l; cases l <;> rfl
    exact key _
  · intro s h
    simp only [List.mem_cons, List.mem_singleton, not_or] at h
    unfold normalizeLogLevel
    simp only [h.1, h.2.1, h.2.2.1, h.2.2.2.1, h.2.2.2.2.1, h.2.2.2.2.2.1, h.2.2.2.2.2.2,
      if_false]

/-- C8 witness: the unrecognized-input conjunct at `CRITICAL` (whose
uppercase form is not one of the seven keywords) evaluates to INFO. -/
theorem claim_C8_witness : normalizeLogLevel "CRITICAL" = LogLevel.info :=
  claim_C8_normalizeLevel.2.2.2.2.2.2 "CRITICAL" (by decide)

/-- C9: numeric timestamp values below `1e12` are treated as epoch seconds
(scaled by 1000), values at or above `1e12` as milliseconds; a string the
date parser rejects, `null`, and booleans all fall back to the ingestion
time `now`; `parseTimestamp` is a total function (it never raises). -/
theorem claim_C9_parseTimestamp :
    (∀ now n : Int, parseTimestamp now (.num n) = if n < 10 ^ 12 then n * 1000 else n)
    ∧ (∀ (now : Int) (s : String), jsDateParse s = none → parseTimestamp now (.str s) = now)
    ∧ (∀ now : Int, parseTimestamp now .null = now)
    ∧ (∀ (now : Int) (b : Bool), parseTimestamp now (.bool b) = now) := by
  refine ⟨fun now n => rfl, fun now s h => ?_, fun now => rfl, fun now b => rfl⟩
  simp [parseTimestamp, h]

/-- C9 witness: the fallback conjunct at the unparseable string `oops`, and
the two sides of the `1e12` threshold. -/
theorem claim_C9_witness :
    parseTimestamp 12345 (.str "oops") = 12345
    ∧ parseTimestamp 0 (.num 7) = 7000
    ∧ parseTimestamp 0 (.num (10 ^ 12)) = 10 ^ 12 := by
  refine ⟨claim_C9_parseTimestamp.2.1 12345 "oops" rfl, ?_, ?_⟩
  · rw [claim_C9_parseTimestamp.1 0 7]; norm_num
  · rw [claim_C9_parseTimestamp.1 0 (10 ^ 12)]; norm_num

/-- C10 (implicit): for a present, non-null resolved value, a non-negated
`equals` filter matches exactly by strict equality `===` — same runtime
type and identical characters for strings — while `contains` compares
lowercased text (case-insensitively). -/
theorem claim_C10_equals_strict :
    (∀ (e : LogEntry) (f : QueryFilter) (v fv : JSVal),
        getFieldValue e f.field = some v → v ≠ .null → f.negate = false →
        f.operator = .equals → f.value = .fsingle fv →
        matchesFilter e f = jsStrictEq v fv)
    ∧ (∀ a b : String, jsStrictEq (.str a) (.str b) = decide (a = b))
    ∧ (∀ a b : Int, jsStrictEq (.num a) (.num b) = decide (a = b))
    ∧ (∀ (s : String) (n : Int), jsStrictEq (.str s) (.num n) = false)
    ∧ (∀ (e : LogEntry) (f : QueryFilter) (s w : String),
        getFieldValue e f.field = some (.str s) → f.negate = false →
        f.operator = .contains → f.value = .fsingle (.str w) →
        matchesFilter e f =
          containsSub (toLowerAscii s).toList (toLowerAscii w).toList) := by
  refine ⟨?_, fun a b => rfl, fun a b => rfl, fun s n => rfl, ?_⟩
  · intro e f v fv h hnull hneg hop hval
    cases v <;> simp_all [matchesFilter]
  · intro e f s w h hneg hop hval
    simp [matchesFilter, h, hneg, hop, hval, jsStringOf, fvToString]

/-- C10 witness: on `entryErr` (level ERROR), `level:error` as a strict
equals filter does not match, while a `contains` filter with the same
lowercase value does. -/
theorem claim_C10_witness :
    matchesFilter entryErr
      { field := "level", operator := .equals, value := .fsingle (.str "error") }
      = jsStrictEq (.str "ERROR") (.str "error")
    ∧ matchesFilter entryErr
        { field := "level", operator := .contains, value := .fsingle (.str "error") }
        = containsSub (toLowerAscii "ERROR").toList (toLowerAscii "error").toList
    ∧ jsStrictEq (.str "ERROR") (.str "error") = false
    ∧ containsSub (toLowerAscii "ERROR").toList (toLowerAscii "error").toList = true := by
  refine ⟨claim_C10_equals_strict.1 entryErr _ (.str "ERROR") (.str "error") rfl
      (by decide) rfl rfl rfl,
    claim_C10_equals_strict.2.2.2.2 entryErr _ "ERROR" "error" rfl rfl rfl rfl,
    by decide, by decide⟩

/-- C6 as amended: when the filter's field resolves to an absent value
(`undefined` or `null`), the result is `false` for `exists` and `true` for
every other operator, and the negate flag is ignored (the result is the
same as with `negate := false`); the negate flag inverts the operator
outcome only when the resolved value is present and non-null. -/
theorem claim_C6_absent_policy :
    (∀ (e : LogEntry) (f : QueryFilter),
        getFieldValue e f.field = none →
        matchesFilter e f = decide (f.operator ≠ FilterOperator.exists)
          ∧ matchesFilter e f = matchesFilter e { f with negate := false })
    ∧ (∀ (e : LogEntry) (f : QueryFilter),
        getFieldValue e f.field = some .null →
        matchesFilter e f = decide (f.operator ≠ FilterOperator.exists)
          ∧ matchesFilter e f = matchesFilter e { f with negate := false })
    ∧ (∀ (e : LogEntry) (f : QueryFilter) (v : JSVal),
        getFieldValue e f.field = some v → v ≠ .null →
        matchesFilter e { f with negate := true }
          = !(matchesFilter e { f with negate := false })) := by
  refine ⟨?_, ?_, ?_⟩
  · intro e f h
    constructor <;> simp [matchesFilter, h]
  · intro e f h
    constructor <;> simp [matchesFilter, h]
  · intro e f v h hnull
    cases v <;> simp_all [matchesFilter]

/-- C6 counterexample: a negated `exists` filter on an absent field.  The
claim says `exists` on an absent value is non-matching and the negate flag
then inverts that to `true`; the code returns `false` because the absent
branch returns before the negate flag is applied. -/
theorem claim_C6_cex :
    getFieldValue entryErr "service" = none
    ∧ matchesFilter entryErr
        { field := "service", operator := .exists, value := .fsingle (.str "s"),
          negate := true } = false := ⟨rfl, rfl⟩

/-- C6 witness: the amended absent-value policy applied to a negated
`equals` filter on the absent `service` field. -/
theorem claim_C6_witness :
    matchesFilter entryErr
        { field := "service", operator := .equals, value := .fsingle (.str "x"),
          negate := true }
      = decide (FilterOperator.equals ≠ FilterOperator.exists)
    ∧ matchesFilter entryErr
        { field := "service", operator := .equals, value := .fsingle (.str "x"),
          negate := true }
      = matchesFilter entryErr
        { field := "service", operator := .equals, value := .fsingle (.str "x"),
          negate := false } :=
  claim_C6_absent_policy.1 entryErr
    { field := "service", operator := .equals, value := .fsingle (.str "x"),
      negate := true } rfl

/-- Helper for C3: a bracketed literal that does not split into exactly two
parts produces no range filter. -/
theorem rangeFilterOf_malformed (field value : String)
    (hparts : (splitTO (String.mk ((value.toList.drop 1).dropLast))).length ≠ 2) :
    rangeFilterOf field value = none := by
  unfold rangeFilterOf
  cases hcond : (jsStartsWith value "[" && jsEndsWith value "]")
  · rfl
  · simp only [if_true]
    cases hsplit : splitTO (String.mk ((value.toList.drop 1).dropLast)) with
    | nil => rfl
    | cons a t =>
      cases t with
      | nil => rfl
      | cons b t2 =>
        cases t2 with
        | nil => exact absurd (by rw [hsplit]; rfl) hparts
        | cons c t3 => rfl

/-- C3 as amended: a field expression whose bracketed value literal is
malformed (not exactly two `TO`-separated parts) is not dropped to free
text — `createFilter` falls through to the literal operator mapping and
produces a filter whose value is the raw bracketed text coerced by
`parseValue`; no exception is raised (the parser is total). -/
theorem claim_C3_malformed_range (field value : String)
    (hparts : (splitTO (String.mk ((value.toList.drop 1).dropLast))).length ≠ 2) :
    createFilter field ":" value
      = some { field, operator := .equals, value := .fsingle (parseValue value) }
    ∧ createFilter field ">" value
      = some { field, operator := .gt, value := .fsingle (parseValue value) }
    ∧ createFilter field ">=" value
      = some { field, operator := .gte, value := .fsingle (parseValue value) }
    ∧ createFilter field "<" value
      = some { field, operator := .lt, value := .fsingle (parseValue value) }
    ∧ createFilter field "<=" value
      = some { field, operator := .lte, value := .fsingle (parseValue value) } := by
  have hnone := rangeFilterOf_malformed field value hparts
  refine ⟨?_, ?_, ?_, ?_, ?_⟩ <;> simp [createFilter, hnone]

/-- C3 counterexample: parsing `f:[A]` produces an `equals` filter whose
value is the literal string `[A]` (the claim says the malformed range is
dropped and no filter is produced). -/
theorem claim_C3_cex :
    kqlParse "f:[A]"
      = some ([{ field := "f", operator := .equals, value := .fsingle (.str "[A]") }], "") :=
  rfl

/-- C3 witness: the amended statement applied to the malformed literal
`[A]` (one part, not two). -/
theorem claim_C3_witness :
    createFilter "f" ":" "[A]"
      = some { field := "f", operator := .equals, value := .fsingle (parseValue "[A]") }
    ∧ parseValue "[A]" = .str "[A]" :=
  ⟨(claim_C3_malformed_range "f" "[A]" (by decide)).1, rfl⟩

/-- C4 as amended: the record level of a structured line comes from the
first truthy (not merely present) field among `level`, `severity`,
`priority`, `loglevel`, normalized; when none is truthy the level is the
result of scanning the JSON-serialized payload for level keywords
(`detectLevelInText`), which yields INFO only when no keyword occurs. -/
theorem claim_C4_level_extraction :
    (∀ (json : List (String × JSVal)) (f s : String),
        firstTruthyField json levelFields = some (f, .str s) →
        extractLevel json = .ok (normalizeLogLevel s))
    ∧ (∀ json : List (String × JSVal),
        firstTruthyField json levelFields = none →
        extractLevel json = .ok (detectLevelInText (jsonStringify json))) := by
  constructor
  · intro json f s h
    simp [extractLevel, h]
  · intro json h
    simp [extractLevel, h]

/-- C4 counterexample: the payload `{"msg":"ERROR"}` has none of the four
level fields, yet the level is ERROR (detected in the serialized payload),
not the INFO default the claim states. -/
theorem claim_C4_cex :
    firstTruthyField [("msg", JSVal.str "ERROR")] levelFields = none
    ∧ extractLevel [("msg", JSVal.str "ERROR")] = .ok LogLevel.error :=
  ⟨rfl, rfl⟩

/-- C4 witness: the first conjunct at a payload whose `level` field holds
`warning`. -/
theorem claim_C4_witness :
    extractLevel [("level", JSVal.str "warning")] = .ok (normalizeLogLevel "warning")
    ∧ normalizeLogLevel "warning" = LogLevel.warn :=
  ⟨claim_C4_level_extraction.1 [("level", JSVal.str "warning")] "level" "warning" rfl, rfl⟩

/-- Helper for C5: a left fold of key-deletions equals one filter against
the whole key list. -/
theorem foldl_filter_keys (ks : List String) (l : List (String × JSVal)) :
    ks.foldl (fun acc k => acc.filter (fun kv => kv.1 ≠ k)) l
      = l.filter (fun kv => !(ks.contains kv.1)) := by
  induction ks generalizing l with
  | nil => simp
  | cons k ks ih =>
    simp only [List.foldl_cons]
    rw [ih, List.filter_filter]
    congr 1
    funext kv
    by_cases hx : kv.1 = k <;> simp [hx, List.contains_cons]

/-- Helper for C5: `removeDeletedKeys` as a single filter. -/
theorem removeDeletedKeys_eq (json : List (String × JSVal)) :
    removeDeletedKeys json = json.filter (fun kv => !(deletedKeys.contains kv.1)) :=
  foldl_filter_keys deletedKeys json

/-- C5 as amended: the structured-fields mapping of a JSON record is the
payload minus the fixed eight-key set `timestamp, ts, time, @timestamp,
level, severity, message, msg` — independent of which keys the extractors
actually consumed (a timestamp taken from `datetime`, a level from
`priority`/`loglevel`, or a message from `text`/`content`/`description`
leaves those keys in the mapping, while `ts`/`time`/… are removed even
when unconsumed). -/
theorem claim_C5_fields_fixed_keys (ctx : ParseCtx) (fn : String) (ln : Nat)
    (line : String) (json : List (String × JSVal)) (e : LogEntry)
    (h : jsonToEntry ctx fn ln line json = .ok e) :
    e.fields = some (json.filter (fun kv => !(deletedKeys.contains kv.1)))
    ∧ ∀ kv : String × JSVal,
        kv ∈ json.filter (fun kv => !(deletedKeys.contains kv.1)) ↔
          (kv ∈ json ∧ kv.1 ∉ deletedKeys) := by
  constructor
  · unfold jsonToEntry at h
    cases hel : extractLevel json with
    | error msg => rw [hel] at h; exact absurd h (by simp)
    | ok level =>
      rw [hel] at h
      cases h
      simpa using removeDeletedKeys_eq json
  · intro kv
    simp [List.mem_filter]

/-- C5 counterexample: in `{"datetime":"2024-01-02","x":1}` the timestamp
is consumed from `datetime`, yet `datetime` remains in the fields mapping;
in `{"ts":5,"time":6}` only `ts` is consumed, yet the unconsumed `time` is
also removed.  Both contradict the claim's consumed-keys description. -/
theorem claim_C5_cex :
    firstTruthyField [("datetime", JSVal.str "2024-01-02"), ("x", JSVal.num 1)]
        timestampFields = some ("datetime", JSVal.str "2024-01-02")
    ∧ (jsonToEntry sampleCtx "f" 1 "raw"
        [("datetime", JSVal.str "2024-01-02"), ("x", JSVal.num 1)]).map LogEntry.fields
      = .ok (some [("datetime", JSVal.str "2024-01-02"), ("x", JSVal.num 1)])
    ∧ firstTruthyField [("ts", JSVal.num 5), ("time", JSVal.num 6)] timestampFields
      = some ("ts", JSVal.num 5)
    ∧ (jsonToEntry sampleCtx "f" 1 "raw"
        [("ts", JSVal.num 5), ("time", JSVal.num 6)]).map LogEntry.fields
      = .ok (some []) :=
  ⟨rfl, rfl, rfl, rfl⟩

/-- C5 witness: the amended statement evaluated on
`{"datetime":"2024-01-02","x":1}`. -/
theorem claim_C5_witness :
    ∃ e, jsonToEntry sampleCtx "f" 1 "raw"
        [("datetime", JSVal.str "2024-01-02"), ("x", JSVal.num 1)] = .ok e
      ∧ e.fields = some (([("datetime", JSVal.str "2024-01-02"), ("x", JSVal.num 1)] :
          List (String × JSVal)).filter (fun kv => !(deletedKeys.contains kv.1))) :=
  ⟨_, rfl, (claim_C5_fields_fixed_keys sampleCtx "f" 1 "raw"
    [("datetime", JSVal.str "2024-01-02"), ("x", JSVal.num 1)] _ rfl).1⟩

/-- Helper for C1: a JSON-looking line is not whitespace-only. -/
theorem looksLikeJson_trim_ne (line : String) (h : looksLikeJson line = true) :
    jsTrim line ≠ "" := by
  intro h'
  unfold looksLikeJson at h
  rw [h'] at h
  exact absurd h (by decide)

/-- C1 as amended: `parseLine` (with JSON detection enabled, the default)
returns absent for whitespace-only lines; returns a record for every
non-empty line that does not look like JSON (free-text parsing always
produces a record); but for a JSON-looking line it raises when `JSON.parse`
fails (or when field extraction throws) — the exception is caught by the
batch loop, not by `parseLine` — and returns the extracted record when the
structured parse succeeds. -/
theorem claim_C1_parseLine_totality (ctx : ParseCtx) (line fn : String) (n : Nat) :
    (jsTrim line = "" → parseLine ctx defaultParseOptions line fn n = .ok none)
    ∧ (jsTrim line ≠ "" → looksLikeJson line = false →
        parseLine ctx defaultParseOptions line fn n
          = .ok (some (parseTextLine ctx line fn n)))
    ∧ (looksLikeJson line = true → jsonParseObj line = none →
        parseLine ctx defaultParseOptions line fn n
          = .error "JSON parsing failed: SyntaxError")
    ∧ (∀ json e, looksLikeJson line = true → jsonParseObj line = some json →
        jsonToEntry ctx fn n line json = .ok e →
        parseLine ctx defaultParseOptions line fn n = .ok (some e)) := by
  refine ⟨?_, ?_, ?_, ?_⟩
  · intro h
    simp [parseLine, h]
  · intro h1 h2
    simp [parseLine, h1, h2, defaultParseOptions]
  · intro h1 h2
    have hne := looksLikeJson_trim_ne line h1
    simp [parseLine, hne, h1, h2, defaultParseOptions, parseJsonLine, Except.map]
  · intro json e h1 h2 h3
    have hne := looksLikeJson_trim_ne line h1
    simp [parseLine, hne, h1, h2, h3, defaultParseOptions, parseJsonLine, Except.map]

/-- C1 counterexample: `{bad}` is a non-empty line, yet `parseLine` raises
(`JSON.parse` fails and `parseJsonLine` rethrows) instead of returning a
record as the claim states. -/
theorem claim_C1_cex :
    jsTrim "{bad}" ≠ ""
    ∧ parseLine sampleCtx defaultParseOptions "{bad}" "f.log" 1
        = .error "JSON parsing failed: SyntaxError" :=
  ⟨by decide, rfl⟩

/-- C1 witness: the amended statement at a free-text line and at a
whitespace-only line. -/
theorem claim_C1_witness :
    parseLine sampleCtx defaultParseOptions "hello" "f.log" 1
      = .ok (some (parseTextLine sampleCtx "hello" "f.log" 1))
    ∧ parseLine sampleCtx defaultParseOptions "   " "f.log" 1 = .ok none :=
  ⟨(claim_C1_parseLine_totality sampleCtx "hello" "f.log" 1).2.1 (by decide) (by decide),
   (claim_C1_parseLine_totality sampleCtx "   " "f.log" 1).1 (by decide)⟩

/-- Helper for C7: membership in an insertion. -/
theorem mem_insertDesc {x a : LogEntry} {l : List LogEntry} :
    a ∈ insertDesc x l ↔ a = x ∨ a ∈ l := by
  induction l with
  | nil => simp [insertDesc]
  | cons y ys ih =>
    unfold insertDesc
    split <;> simp [List.mem_cons, ih] <;> tauto

/-- Helper for C7: inserting permutes with consing. -/
theorem insertDesc_perm (x : LogEntry) (l : List LogEntry) :
    (insertDesc x l).Perm (x :: l) := by
  induction l with
  | nil => exact List.Perm.refl _
  | cons y ys ih =>
    unfold insertDesc
    split
    · exact ((ih.cons y).trans (List.Perm.swap x y ys))
    · exact List.Perm.refl _

/-- Helper for C7: the sort is a permutation of its input. -/
theorem sortDesc_perm (l : List LogEntry) : (sortDesc l).Perm l := by
  induction l with
  | nil => exact List.Perm.refl _
  | cons x xs ih =>
    exact (insertDesc_perm x (sortDesc xs)).trans (ih.cons x)

/-- Helper for C7: insertion preserves descending order. -/
theorem pairwise_insertDesc (x : LogEntry) (l : List LogEntry)
    (h : l.Pairwise (fun a b => b.timestamp ≤ a.timestamp)) :
    (insertDesc x l).Pairwise (fun a b => b.timestamp ≤ a.timestamp) := by
  induction l with
  | nil => simp [insertDesc]
  | cons y ys ih =>
    rcases List.pairwise_cons.1 h with ⟨hy, hys⟩
    unfold insertDesc
    split
    · rename_i hlt
      refine List.pairwise_cons.2 ⟨?_, ih hys⟩
      intro z hz
      rcases mem_insertDesc.1 hz with rfl | hz'
      · exact le_of_lt hlt
      · exact hy z hz'
    · rename_i hge
      refine List.pairwise_cons.2 ⟨?_, h⟩
      intro z hz
      rcases List.mem_cons.1 hz with rfl | hz'
      · exact not_lt.1 hge
      · exact le_trans (hy z hz') (not_lt.1 hge)

/-- Helper for C7: the sort output is descending. -/
theorem sortDesc_pairwise (l : List LogEntry) :
    (sortDesc l).Pairwise (fun a b => b.timestamp ≤ a.timestamp) := by
  induction l with
  | nil => simp [sortDesc]
  | cons x xs ih => exact pairwise_insertDesc x (sortDesc xs) ih

/-- Helper for C7 (stability): restricting an insertion to one timestamp
value puts the inserted element first when it carries that timestamp and
changes nothing otherwise. -/
theorem filter_insertDesc (x : LogEntry) (l : List LogEntry) (t : Int) :
    (insertDesc x l).filter (fun e => e.timestamp == t)
      = if x.timestamp == t then x :: l.filter (fun e => e.timestamp == t)
        else l.filter (fun e => e.timestamp == t) := by
  induction l with
  | nil =>
    simp only [insertDesc, List.filter]
    split <;> simp_all [List.filter]
  | cons y ys ih =>
    unfold insertDesc
    split
    · rename_i hlt
      by_cases hxt : (x.timestamp == t) = true
      · have hyt : ¬(y.timestamp == t) = true := by
          simp only [beq_iff_eq] at hxt ⊢
          omega
        simp [List.filter_cons, hxt, hyt, ih]
      · simp [List.filter_cons, hxt, ih]
    · by_cases hxt : (x.timestamp == t) = true
      · simp [List.filter_cons, hxt]
      · simp [List.filter_cons, hxt]

/-- Helper for C7 (stability): sorting commutes with restriction to one
timestamp — entries with equal timestamps keep their original order. -/
theorem filter_sortDesc (l : List LogEntry) (t : Int) :
    (sortDesc l).filter (fun e => e.timestamp == t)
      = l.filter (fun e => e.timestamp == t) := by
  induction l with
  | nil => rfl
  | cons x xs ih =>
    simp only [sortDesc, filter_insertDesc, List.filter_cons]
    by_cases hxt : (x.timestamp == t) = true
    · simp [hxt, ih]
    · simp [hxt, ih]

/-- C7: with no filters and empty text, `search` returns exactly the
records whose timestamp lies in the inclusive `[from, to]` range, sorted by
timestamp descending, stably (records sharing a timestamp keep their prior
relative order), and `total` is the result length. -/
theorem claim_C7_search_time_sort (s : IndexState) (q : SearchQuery)
    (hf : q.filters = []) (ht : jsTrim q.text = "") :
    (search s q).entries
      = sortDesc (s.entries.filter (fun e =>
          q.timeRange.fromTime ≤ e.timestamp && e.timestamp ≤ q.timeRange.toTime))
    ∧ ((search s q).entries).Perm
        (s.entries.filter (fun e =>
          q.timeRange.fromTime ≤ e.timestamp && e.timestamp ≤ q.timeRange.toTime))
    ∧ ((search s q).entries).Pairwise (fun a b => b.timestamp ≤ a.timestamp)
    ∧ (∀ t : Int, ((search s q).entries).filter (fun e => e.timestamp == t)
        = s.entries.filter (fun e =>
            (q.timeRange.fromTime ≤ e.timestamp && e.timestamp ≤ q.timeRange.toTime)
              && e.timestamp == t))
    ∧ (search s q).total = ((search s q).entries).length := by
  have hentries : (search s q).entries
      = sortDesc (s.entries.filter (fun e =>
          q.timeRange.fromTime ≤ e.timestamp && e.timestamp ≤ q.timeRange.toTime)) := by
    simp [search, hf, ht]
  refine ⟨hentries, ?_, ?_, ?_, ?_⟩
  · rw [hentries]; exact sortDesc_perm _
  · rw [hentries]; exact sortDesc_pairwise _
  · intro t
    rw [hentries, filter_sortDesc, List.filter_filter]
    congr 1
    funext e
    exact Bool.and_comm _ _
  · simp [search, hf, ht]

/-- Concrete records and index for the C7 witness (timestamps 1 < 2 < 3). -/
def recT1 : LogEntry :=
  { id := "a", timestamp := 1, level := .info, message := "m1", file := "f", raw := "r1" }

/-- Second record, timestamp 2. -/
def recT2 : LogEntry :=
  { id := "b", timestamp := 2, level := .info, message := "m2", file := "f", raw := "r2" }

/-- Third record, timestamp 3. -/
def recT3 : LogEntry :=
  { id := "c", timestamp := 3, level := .info, message := "m3", file := "f", raw := "r3" }

/-- An empty index state. -/
def emptyIdx : IndexState := { entries := [], fieldStats := [], textIndex := fun _ _ => [] }

/-- The three-record index of the C7 scenario. -/
def idxS3 : IndexState := { emptyIdx with entries := [recT1, recT2, recT3] }

/-- The C7 query: no text, no filters, range `[1, 2]`. -/
def q12 : SearchQuery :=
  { text := "", filters := [], timeRange := { fromTime := 1, toTime := 2 } }

/-- C7 witness: on three records with timestamps 1 < 2 < 3 and range
`[1, 2]`, the result is exactly the timestamp-2 record then the
timestamp-1 record. -/
theorem claim_C7_witness :
    (search idxS3 q12).entries = [recT2, recT1] ∧ (search idxS3 q12).total = 2 := by
  have h := (claim_C7_search_time_sort idxS3 q12 rfl rfl).1
  exact ⟨by rw [h]; rfl, rfl⟩

/-! ### C2: per-batch field statistics -/

/-- Accumulate a value keeping first-occurrence order and distinctness. -/
def addDistinct (acc : List JSVal) (v : JSVal) : List JSVal :=
  if v ∈ acc then acc else acc ++ [v]

/-- Distinct values of a list, in first-occurrence order. -/
def distinctList (l : List JSVal) : List JSVal :=
  l.foldl addDistinct []

/-- The non-null values a pair list contributes to field `f`. -/
def pairsVals (f : String) (pairs : List (String × Option JSVal)) : List JSVal :=
  pairs.filterMap (fun kv =>
    if kv.1 = f then
      match kv.2 with
      | some v => if v = .null then none else some v
      | none => none
    else none)

/-- The non-null values one entry contributes to field `f`. -/
def entryVals (f : String) (e : LogEntry) : List JSVal :=
  pairsVals f (entryStatPairs e)

/-- All non-null values observed for field `f` across a batch, in
traversal order. -/
def observedVals (f : String) (batch : List LogEntry) : List JSVal :=
  (batch.map (entryVals f)).flatten

/-- The value keys recorded for field `f` in a field-counts table. -/
def vkeys (fc : List (String × List (JSVal × Nat))) (f : String) : List JSVal :=
  ((assocGet fc f).getD []).map Prod.fst

/-- `assocGet` after `assocSet` at the same key. -/
theorem assocGet_assocSet_self {κ α : Type} [DecidableEq κ]
    (l : List (κ × α)) (k : κ) (v : α) : assocGet (assocSet l k v) k = some v := by
  induction l with
  | nil => simp [assocSet, assocGet]
  | cons p t ih =>
    obtain ⟨a, b⟩ := p
    by_cases hp : a = k
    · simp [assocSet, assocGet, hp]
    · simp [assocSet, assocGet, hp, ih]

/-- `assocGet` after `assocSet` at a different key. -/
theorem assocGet_assocSet_ne {κ α : Type} [DecidableEq κ]
    (l : List (κ × α)) (k k' : κ) (v : α) (h : k' ≠ k) :
    assocGet (assocSet l k v) k' = assocGet l k' := by
  have hne : k ≠ k' := Ne.symm h
  induction l with
  | nil => simp [assocSet, assocGet, hne]
  | cons p t ih =>
    obtain ⟨a, b⟩ := p
    by_cases hp : a = k
    · have hak : a ≠ k' := hp ▸ hne
      simp [assocSet, assocGet, hp, hak, hne]
    · simp [assocSet, assocGet, hp, ih]

/-- Keys after `assocSet`: unchanged when present, appended when fresh. -/
theorem keys_assocSet {κ α : Type} [DecidableEq κ]
    (l : List (κ × α)) (k : κ) (v : α) :
    (assocSet l k v).map Prod.fst
      = if k ∈ l.map Prod.fst then l.map Prod.fst else l.map Prod.fst ++ [k] := by
  induction l with
  | nil => simp [assocSet]
  | cons p t ih =>
    obtain ⟨a, b⟩ := p
    by_cases hp : a = k
    · simp [assocSet, hp]
    · have hne : ¬k = a := fun hc => hp hc.symm
      rw [show assocSet ((a, b) :: t) k v = (a, b) :: assocSet t k v from by
        simp [assocSet, hp]]
      simp only [List.map_cons, ih, List.mem_cons, hne, false_or]
      by_cases hm : k ∈ t.map Prod.fst
      · simp [hm]
      · simp [hm]

/-- A successful `assocGet` exhibits a member. -/
theorem assocGet_mem {κ α : Type} [DecidableEq κ]
    {l : List (κ × α)} {k : κ} {v : α} (h : assocGet l k = some v) : (k, v) ∈ l := by
  induction l with
  | nil => simp [assocGet] at h
  | cons p t ih =>
    obtain ⟨a, b⟩ := p
    by_cases hp : a = k
    · simp [assocGet, hp] at h
      subst hp
      cases h
      exact List.mem_cons_self _ _
    · simp [assocGet, hp] at h
      exact List.mem_cons_of_mem _ (ih h)

/-- `updateFieldStat` on the tracked field appends the value key when it is
new and keeps the keys otherwise. -/
theorem vkeys_updateFieldStat_self (fc : List (String × List (JSVal × Nat)))
    (f : String) (v : JSVal) (hv : v ≠ .null) :
    vkeys (updateFieldStat fc f (some v)) f = addDistinct (vkeys fc f) v := by
  have hred : updateFieldStat fc f (some v)
      = assocSet fc f
          (assocSet ((assocGet fc f).getD []) v
            ((assocGet ((assocGet fc f).getD []) v).getD 0 + 1)) := by
    cases v <;> simp_all [updateFieldStat]
  rw [hred]
  unfold vkeys
  rw [assocGet_assocSet_self]
  simp only [Option.getD_some]
  rw [keys_assocSet]
  unfold addDistinct
  rfl

/-- `updateFieldStat` elsewhere (other field, undefined or null value)
leaves the tracked field's value keys unchanged. -/
theorem vkeys_updateFieldStat_other (fc : List (String × List (JSVal × Nat)))
    (f g : String) (w : Option JSVal)
    (h : g ≠ f ∨ w = none ∨ w = some .null) :
    vkeys (updateFieldStat fc g w) f = vkeys fc f := by
  match w, h with
  | none, _ => rfl
  | some .null, _ => rfl
  | some v, h =>
    by_cases hvn : v = .null
    · subst hvn; rfl
    · have hg : g ≠ f := by
        rcases h with hg | hw | hw
        · exact hg
        · exact absurd hw (by simp)
        · cases v <;> simp_all
      have hred : updateFieldStat fc g (some v)
          = assocSet fc g
              (assocSet ((assocGet fc g).getD []) v
                ((assocGet ((assocGet fc g).getD []) v).getD 0 + 1)) := by
        cases v <;> simp_all [updateFieldStat]
      rw [hred]
      unfold vkeys
      rw [assocGet_assocSet_ne _ _ _ _ (fun hc => hg hc.symm)]

/-- Folding `updateFieldStat` over a pair list accumulates exactly the
pairs' non-null values for the tracked field. -/
theorem vkeys_pairsFold (pairs : List (String × Option JSVal))
    (fc : List (String × List (JSVal × Nat))) (f : String) :
    vkeys (pairs.foldl (fun fc kv => updateFieldStat fc kv.1 kv.2) fc) f
      = (pairsVals f pairs).foldl addDistinct (vkeys fc f) := by
  induction pairs generalizing fc with
  | nil => rfl
  | cons kv rest ih =>
    obtain ⟨g, w⟩ := kv
    simp only [List.foldl_cons]
    by_cases hg : g = f
    · subst hg
      cases w with
      | none =>
        have h2 : pairsVals g ((g, none) :: rest) = pairsVals g rest := by
          simp [pairsVals]
        rw [h2]
        exact ih fc
      | some v =>
        by_cases hv : v = JSVal.null
        · subst hv
          have h1 : updateFieldStat fc g (some .null) = fc := rfl
          have h2 : pairsVals g ((g, some .null) :: rest) = pairsVals g rest := by
            simp [pairsVals]
          rw [h1, h2]
          exact ih fc
        · have h2 : pairsVals g ((g, some v) :: rest) = v :: pairsVals g rest := by
            simp [pairsVals, hv]
          rw [h2, ih, vkeys_updateFieldStat_self fc g v hv]
          rfl
    · have h2 : pairsVals f ((g, w) :: rest) = pairsVals f rest := by
        simp [pairsVals, hg]
      rw [h2, ih, vkeys_updateFieldStat_other fc f g w (Or.inl hg)]

/-- Folding the per-entry statistics step over a batch accumulates exactly
the observed values of the tracked field. -/
theorem vkeys_batchFold (batch : List LogEntry)
    (fc : List (String × List (JSVal × Nat))) (f : String) :
    vkeys (batch.foldl stepEntryStats fc) f
      = (observedVals f batch).foldl addDistinct (vkeys fc f) := by
  induction batch generalizing fc with
  | nil => rfl
  | cons e rest ih =>
    simp only [List.foldl_cons]
    rw [ih]
    have hstep : stepEntryStats fc e
        = (entryStatPairs e).foldl (fun fc kv => updateFieldStat fc kv.1 kv.2) fc := rfl
    rw [hstep, vkeys_pairsFold]
    have hobs : observedVals f (e :: rest) = entryVals f e ++ observedVals f rest := by
      simp [observedVals]
    rw [hobs, List.foldl_append]
    rfl

/-- The value keys the batch-local counts record for a field are its
distinct observed values in first-occurrence order. -/
theorem vkeys_buildFieldCounts (batch : List LogEntry) (f : String) :
    vkeys (buildFieldCounts batch) f = distinctList (observedVals f batch) := by
  unfold buildFieldCounts distinctList
  rw [vkeys_batchFold]
  rfl

/-- The distinct-accumulator is empty only for empty input. -/
theorem foldl_addDistinct_eq_nil (l : List JSVal) :
    ∀ acc : List JSVal, l.foldl addDistinct acc = [] → l = [] ∧ acc = [] := by
  induction l with
  | nil => intro acc h; exact ⟨rfl, h⟩
  | cons v rest ih =>
    intro acc h
    rcases ih (addDistinct acc v) h with ⟨_, hadd⟩
    unfold addDistinct at hadd
    split at hadd
    · rename_i hmem
      subst hadd
      cases hmem
    · exact absurd hadd (by simp)

/-- Membership in the distinct-accumulator. -/
theorem mem_foldl_addDistinct (l : List JSVal) :
    ∀ (acc : List JSVal) (a : JSVal), a ∈ l.foldl addDistinct acc ↔ a ∈ acc ∨ a ∈ l := by
  induction l with
  | nil => intro acc a; simp
  | cons v rest ih =>
    intro acc a
    simp only [List.foldl_cons, ih, List.mem_cons]
    unfold addDistinct
    split
    · rename_i hmem
      constructor
      · rintro (h | h)
        · exact Or.inl h
        · exact Or.inr (Or.inr h)
      · rintro (h | h | h)
        · exact Or.inl h
        · exact Or.inl (h ▸ hmem)
        · exact Or.inr h
    · simp [List.mem_append]
      tauto

/-- The distinct-accumulator has no duplicates. -/
theorem nodup_foldl_addDistinct (l : List JSVal) :
    ∀ acc : List JSVal, acc.Nodup → (l.foldl addDistinct acc).Nodup := by
  induction l with
  | nil => intro acc h; exact h
  | cons v rest ih =>
    intro acc h
    refine ih (addDistinct acc v) ?_
    unfold addDistinct
    split
    · exact h
    · rename_i hmem
      simp [List.nodup_append, h, hmem]

/-- The number of distinct observed values equals the `Finset` cardinality
of the observation list. -/
theorem distinctList_length (l : List JSVal) :
    (distinctList l).length = l.toFinset.card := by
  have hnd : (distinctList l).Nodup := nodup_foldl_addDistinct l [] (by simp)
  have hmem : ∀ a, a ∈ distinctList l ↔ a ∈ l := by
    intro a
    unfold distinctList
    rw [mem_foldl_addDistinct]
    simp
  have hts : (distinctList l).toFinset = l.toFinset := by
    ext a
    simp [List.mem_toFinset, hmem]
  rw [← hts, List.toFinset_card_of_nodup hnd]

/-- `assocSet` preserves key distinctness. -/
theorem keysNodup_assocSet {κ α : Type} [DecidableEq κ]
    (l : List (κ × α)) (k : κ) (v : α) (h : (l.map Prod.fst).Nodup) :
    ((assocSet l k v).map Prod.fst).Nodup := by
  rw [keys_assocSet]
  split
  · exact h
  · rename_i hm
    simp [List.nodup_append, h, hm]

/-- `updateFieldStat` preserves key distinctness. -/
theorem keysNodup_updateFieldStat (fc : List (String × List (JSVal × Nat)))
    (g : String) (w : Option JSVal) (h : (fc.map Prod.fst).Nodup) :
    ((updateFieldStat fc g w).map Prod.fst).Nodup := by
  match w with
  | none => exact h
  | some .null => exact h
  | some v =>
    by_cases hv : v = JSVal.null
    · subst hv; exact h
    · have hred : updateFieldStat fc g (some v)
          = assocSet fc g
              (assocSet ((assocGet fc g).getD []) v
                ((assocGet ((assocGet fc g).getD []) v).getD 0 + 1)) := by
        cases v <;> simp_all [updateFieldStat]
      rw [hred]
      exact keysNodup_assocSet fc g _ h

/-- The batch-local counts table has distinct field keys. -/
theorem keysNodup_buildFieldCounts (batch : List LogEntry) :
    ((buildFieldCounts batch).map Prod.fst).Nodup := by
  have general : ∀ (pairs : List (String × Option JSVal))
      (fc : List (String × List (JSVal × Nat))), (fc.map Prod.fst).Nodup →
      ((pairs.foldl (fun fc kv => updateFieldStat fc kv.1 kv.2) fc).map Prod.fst).Nodup := by
    intro pairs
    induction pairs with
    | nil => intro fc h; exact h
    | cons kv rest ih =>
      intro fc h
      exact ih _ (keysNodup_updateFieldStat fc kv.1 kv.2 h)
  have general2 : ∀ (batch : List LogEntry) (fc : List (String × List (JSVal × Nat))),
      (fc.map Prod.fst).Nodup →
      ((batch.foldl stepEntryStats fc).map Prod.fst).Nodup := by
    intro batch
    induction batch with
    | nil => intro fc h; exact h
    | cons e rest ih =>
      intro fc h
      exact ih _ (general (entryStatPairs e) fc h)
  exact general2 batch [] (by simp)

/-- Folding suggestion writes for fields other than `f` leaves `f`'s slot
unchanged. -/
theorem assocGet_statsFold_not_mem (fc : List (String × List (JSVal × Nat)))
    (f : String) (hf : f ∉ fc.map Prod.fst) :
    ∀ stats : List (String × FieldSuggestion),
      assocGet (fc.foldl (fun st p => assocSet st p.1 (mkSuggestion p.1 p.2)) stats) f
        = assocGet stats f := by
  induction fc with
  | nil => intro stats; rfl
  | cons p t ih =>
    intro stats
    obtain ⟨g, w⟩ := p
    simp only [List.map_cons, List.mem_cons] at hf
    push_neg at hf
    simp only [List.foldl_cons]
    rw [ih hf.2, assocGet_assocSet_ne _ _ _ _ hf.1]

/-- The suggestion recorded for a field of the batch-local counts table is
built from that field's value counts. -/
theorem assocGet_statsFold (fc : List (String × List (JSVal × Nat)))
    (f : String) (vc : List (JSVal × Nat))
    (hnd : (fc.map Prod.fst).Nodup) (hmem : (f, vc) ∈ fc) :
    ∀ stats : List (String × FieldSuggestion),
      assocGet (fc.foldl (fun st p => assocSet st p.1 (mkSuggestion p.1 p.2)) stats) f
        = some (mkSuggestion f vc) := by
  induction fc with
  | nil => cases hmem
  | cons p t ih =>
    intro stats
    obtain ⟨g, w⟩ := p
    simp only [List.map_cons, List.nodup_cons] at hnd
    rcases List.mem_cons.1 hmem with heq | hmem'
    · injection heq with h1 h2
      subst h1; subst h2
      simp only [List.foldl_cons]
      rw [assocGet_statsFold_not_mem t f hnd.1, assocGet_assocSet_self]
    · simp only [List.foldl_cons]
      exact ih hnd.2 hmem' _

/-- Well-formed statistics: every stored suggestion is named after its key
(an invariant of every state the index API can produce). -/
def statsWF (stats : List (String × FieldSuggestion)) : Prop :=
  ∀ p ∈ stats, (p.2).field = p.1

/-- `assocSet` with a matching suggestion preserves well-formedness. -/
theorem statsWF_assocSet (stats : List (String × FieldSuggestion))
    (k : String) (sug : FieldSuggestion) (h : statsWF stats) (hs : sug.field = k) :
    statsWF (assocSet stats k sug) := by
  induction stats with
  | nil =>
    intro p hp
    simp [assocSet] at hp
    subst hp
    exact hs
  | cons q t ih =>
    obtain ⟨a, b⟩ := q
    intro p hp
    unfold assocSet at hp
    by_cases ha : a = k
    · simp only [ha, if_pos rfl] at hp
      rcases List.mem_cons.1 hp with rfl | hp'
      · exact hs
      · exact h p (List.mem_cons_of_mem _ hp')
    · simp only [ha, if_neg ha] at hp
      rcases List.mem_cons.1 hp with rfl | hp'
      · exact h (a, b) (List.mem_cons_self _ _)
      · exact ih (fun q hq => h q (List.mem_cons_of_mem _ hq)) p hp'

/-- The suggestion-write fold preserves well-formedness. -/
theorem statsWF_statsFold (fc : List (String × List (JSVal × Nat))) :
    ∀ stats : List (String × FieldSuggestion), statsWF stats →
      statsWF (fc.foldl (fun st p => assocSet st p.1 (mkSuggestion p.1 p.2)) stats) := by
  induction fc with
  | nil => intro stats h; exact h
  | cons p t ih =>
    intro stats h
    exact ih _ (statsWF_assocSet stats p.1 (mkSuggestion p.1 p.2) h rfl)

/-- On well-formed statistics, searching the suggestion list by `field`
is the keyed lookup. -/
theorem find_eq_assocGet (stats : List (String × FieldSuggestion)) (f : String)
    (h : statsWF stats) :
    (stats.map Prod.snd).find? (fun x => x.field == f) = assocGet stats f := by
  induction stats with
  | nil => rfl
  | cons p t ih =>
    obtain ⟨a, sug⟩ := p
    have ha : sug.field = a := h (a, sug) (List.mem_cons_self _ _)
    simp only [List.map_cons, List.find?_cons]
    by_cases hf : a = f
    · have hb : (sug.field == f) = true := by rw [ha, hf]; simp
      simp [hb, assocGet, hf]
    · have hb : (sug.field == f) = false := by rw [ha]; simp [hf]
      simp only [hb, assocGet, if_neg hf]
      exact ih (fun q hq => h q (List.mem_cons_of_mem _ hq))

/-- C2 as amended: after `addEntries`, for every field the batch mentions
(at least one non-null observation), `getFieldSuggestions` reports a
cardinality equal to the number of distinct non-null values of that field
in this batch alone — the suggestion is rebuilt from the batch-local
counts table, replacing (not accumulating into) the previous statistics. -/
theorem claim_C2_per_batch_cardinality (s : IndexState) (batch : List LogEntry)
    (f : String) (hwf : statsWF s.fieldStats)
    (h : observedVals f batch ≠ []) :
    ∃ sug, (getFieldSuggestions (addEntries s batch)).find? (fun x => x.field == f)
        = some sug
      ∧ sug.cardinality = (observedVals f batch).toFinset.card := by
  have hvk : vkeys (buildFieldCounts batch) f = distinctList (observedVals f batch) :=
    vkeys_buildFieldCounts batch f
  have hne : distinctList (observedVals f batch) ≠ [] := by
    intro hnil
    exact h (foldl_addDistinct_eq_nil _ _ hnil).1
  obtain ⟨vc, hvc⟩ : ∃ vc, assocGet (buildFieldCounts batch) f = some vc := by
    cases hget : assocGet (buildFieldCounts batch) f with
    | none =>
      exfalso
      apply hne
      rw [← hvk]
      unfold vkeys
      rw [hget]
      rfl
    | some vc => exact ⟨vc, rfl⟩
  have hmem : (f, vc) ∈ buildFieldCounts batch := assocGet_mem hvc
  have hnodup := keysNodup_buildFieldCounts batch
  have hstats : assocGet (updateFieldStats s.fieldStats batch) f
      = some (mkSuggestion f vc) := by
    unfold updateFieldStats
    exact assocGet_statsFold (buildFieldCounts batch) f vc hnodup hmem s.fieldStats
  have hwf' : statsWF (updateFieldStats s.fieldStats batch) := by
    unfold updateFieldStats
    exact statsWF_statsFold (buildFieldCounts batch) s.fieldStats hwf
  refine ⟨mkSuggestion f vc, ?_, ?_⟩
  · have : getFieldSuggestions (addEntries s batch)
        = (updateFieldStats s.fieldStats batch).map Prod.snd := rfl
    rw [this, find_eq_assocGet _ _ hwf', hstats]
  · have hvals : vc.map Prod.fst = distinctList (observedVals f batch) := by
      rw [← hvk]
      unfold vkeys
      rw [hvc]
      rfl
    have : (mkSuggestion f vc).cardinality = (vc.map Prod.fst).length := by
      simp [mkSuggestion]
    rw [this, hvals, distinctList_length]

/-- C2 witness: one batch holding the single ERROR record, queried for the
`level` field. -/
theorem claim_C2_witness :
    ∃ sug, (getFieldSuggestions (addEntries emptyIdx [entryErr])).find?
        (fun x => x.field == "level") = some sug
      ∧ sug.cardinality = (observedVals "level" [entryErr]).toFinset.card :=
  claim_C2_per_batch_cardinality emptyIdx [entryErr] "level"
    (fun p hp => absurd hp (List.not_mem_nil p)) (by decide)

/-- C2 counterexample: adding an ERROR record and then, in a second
`addEntries` call, an INFO record leaves the reported cardinality of
`level` at 1, though 2 distinct values were observed across all calls —
the statistics are replaced per batch, not accumulated. -/
theorem claim_C2_cex :
    ((getFieldSuggestions (addEntries (addEntries emptyIdx [entryErr]) [recT1])).find?
        (fun x => x.field == "level")).map FieldSuggestion.cardinality = some 1
    ∧ (observedVals "level" ([entryErr] ++ [recT1])).toFinset.card = 2 :=
  ⟨rfl, by decide⟩
